import Mathlib

/-!
Verification development for the AlgART native array kernels
(net_algart_array_ArraysNative): CPU-capability probing (`_cpuInfo` in
ArraysFunctions.h), the capability-dispatched bulk operations fill / copy /
min / max / minu / maxu (ArraysNative.cpp, Arrays_fill.h,
Arrays_minmax_int.h, Arrays_minmax_float.h, Arrays_minmax_double.h), and the
alignment-aware loop partitioning macros (ArraysMacro.h).

Modelling conventions:
* Machine memory is a total function `Nat → α` from byte (or element)
  addresses to cell contents; buffers never go out of bounds in the model and
  frame conditions are expressed as pointwise equality outside a range.
* The hand-written SSE / MMX / x87 assembly bodies are embedded at the level
  of the values they load and store per iteration, which is the level the
  claims speak about: e.g. one iteration of the 64-byte SSE copy loop loads
  64 source bytes into xmm0..xmm3 and then stores all 64 of them, so it is
  embedded as an atomic 64-byte block move; `pminub`, the
  `pxor bitmask / pminsw / pxor bitmask` sandwich and the
  `pcmpgt / pand / pandn / por` blend all denote the element-wise minimum
  (resp. maximum) in the operation's signedness, and are embedded as the
  corresponding element-wise step; the x87 `fucomi`/`fcmov` sequence and
  `minps`/`maxps` are embedded with their exact unordered-operand (NaN)
  behaviour, which differs from the scalar C tail.
* Floating-point elements are embedded as `Option Int`: `none` is a NaN,
  `some x` a (finite, totally ordered) numeric value.  Only ordering and
  copying of elements occur in these kernels, so this captures exactly the
  comparison behaviour (`NaN` compares false to everything) that
  distinguishes the branches.
* The 64-bit capability descriptor is a `Nat`; flag tests `CpuInfo & FLAG`
  follow the C code.
-/

namespace ArraysNative

/-- Byte- or element-addressed memory: a total map from addresses to cells. -/
def Mem (α : Type) : Type := Nat → α

/-- Write `n` consecutive cells starting at `start`, taking the value of cell
`start + k` from `src k`; all other cells retain their old value. -/
def setN {α : Type} (m : Mem α) (start : Nat) (src : Nat → α) (n : Nat) : Mem α :=
  fun i => if start ≤ i ∧ i < start + n then src (i - start) else m i

/-- CPU_FPU flag, bit 0 (ArraysMacro.h). -/
def CPU_FPU : Nat := 1

/-- CPU_TSC flag, bit 4 (ArraysMacro.h). -/
def CPU_TSC : Nat := 1 <<< 4

/-- CPU_CMOV flag, bit 15 (ArraysMacro.h). -/
def CPU_CMOV : Nat := 1 <<< 15

/-- CPU_MMX flag, bit 23 (ArraysMacro.h). -/
def CPU_MMX : Nat := 1 <<< 23

/-- CPU_SSE flag, bit 25 (ArraysMacro.h). -/
def CPU_SSE : Nat := 1 <<< 25

/-- CPU_SSE2 flag, bit 26 (ArraysMacro.h). -/
def CPU_SSE2 : Nat := 1 <<< 26

/-- CPU_AMD flag, bit 59 (ArraysMacro.h). -/
def CPU_AMD : Nat := 1 <<< 59

/-- CPU_MMXEX flag, bit 60 (ArraysMacro.h). -/
def CPU_MMXEX : Nat := 1 <<< 60

/-- CPU_3DNOWEX flag, bit 62 (ArraysMacro.h). -/
def CPU_3DNOWEX : Nat := 1 <<< 62

/-- CPU_3DNOW flag, bit 63 (ArraysMacro.h). -/
def CPU_3DNOW : Nat := 1 <<< 63

/-- Flag test `CpuInfo & FLAG` of the C dispatchers (nonzero = present). -/
def hasFlag (cpu flag : Nat) : Bool := decide (cpu &&& flag ≠ 0)

/-- LOOP_PREFIX_ALIGNED (ArraysMacro.h lines 92-103): split `Len` elements of
size `s` bytes starting at byte address `addr` into an unaligned head
(`lenStart` elements), `body` aligned blocks of `U / s` elements
(`UNLOOPING = U` bytes) and a tail of `lenEnd` elements.  The macro moves one
whole block from the body into the tail when the body is non-empty. -/
structure LoopSplit where
  lenStart : Nat
  body : Nat
  lenEnd : Nat

/-- The computation of LOOP_PREFIX_ALIGNED(U): `disp = (int)pa & 31`;
`lenStart = (32-disp)/sizeof` when `disp` is a nonzero multiple of the element
size (dropped to 0 when `Len < lenStart`); `lenEnd = len & (U/sizeof - 1)`;
`len /= U/sizeof`; and `if (len>0) \x7blen--; lenEnd += U/sizeof;\x7d`. -/
def loopPrefixAligned (addr s Len U : Nat) : LoopSplit :=
  let disp := addr &&& 31
  let lenStart0 := if disp ≠ 0 ∧ disp &&& (s - 1) = 0 then (32 - disp) / s else 0
  let lenStart := if Len < lenStart0 then 0 else lenStart0
  let len1 := Len - lenStart
  let unit := U / s
  let lenEnd := len1 &&& (unit - 1)
  let len2 := len1 / unit
  if 0 < len2 then ⟨lenStart, len2 - 1, lenEnd + unit⟩ else ⟨lenStart, 0, lenEnd⟩

/-- LOOP_PREFIX (ArraysMacro.h lines 105-108), the unaligned split used by the
scalar kernels: `(len, lenEnd) = (Len / (U/sizeof), Len & (U/sizeof - 1))`. -/
def loopPrefixPlain (s Len U : Nat) : Nat × Nat :=
  (Len / (U / s), Len &&& (U / s - 1))

/-- Element sizes that occur in the native kernels: jbyte 1, jchar/jshort 2,
jint/jfloat/jobject 4, jlong/jdouble 8 bytes. -/
def ElemSize (s : Nat) : Prop := s = 1 ∨ s = 2 ∨ s = 4 ∨ s = 8

instance (s : Nat) : Decidable (ElemSize s) := by
  unfold ElemSize; infer_instance

/-- The 32-byte `filler` array of Arrays_fill.h, built by
`for (j=0; j<32/sizeof(*pa); j++) ((TYPE*)filler)[j]= V;`: byte `i` of the
array is byte `i % s` of the fill value `V` (little-endian bytes `vb`). -/
def fillFiller {α : Type} (s : Nat) (vb : Nat → α) : Nat → α :=
  fun i => vb (i % s)

/-- Effective L2 cache size used by the SSE fill and copy paths:
`cacheSize = ((CpuInfo >> CPU_L2SIZE_SHIFT) & CPU_L2SIZE) * CPU_L2SIZE_UNIT;`
`if (cacheSize < 65536) cacheSize = 65536;` (Arrays_fill.h lines 27-28,
ArraysNative.cpp lines 97-98). -/
def effCacheSize (cpu : Nat) : Nat :=
  let c := ((cpu >>> 32) &&& 1023) * (32 * 1024)
  if c < 65536 then 65536 else c

/-- The non-temporal-store decision of the SSE fill body
(`mov ecx,len; shr ecx,3; jz _EndLoop; cmp ecx,cacheSizeIn128ByteBlocks;
jb _Loop;`): the `movntps` loop runs iff the count of 128-byte blocks is
nonzero and at least `cacheSize/128`. -/
def fillUsesNT (cpu len16 : Nat) : Bool :=
  decide (0 < len16 >>> 3) && decide (effCacheSize cpu / 128 ≤ len16 >>> 3)

/-- The `_Loop_ntps` body of Arrays_fill.h: each iteration stores the 16
filler bytes held in xmm0 eight times (`movntps [edi+16*t],xmm0`,
t = 0..7) and advances by 128 bytes. -/
def fillLoopNtps {α : Type} (xmm : Nat → α) (m : Mem α) (p : Nat) : Nat → Mem α
  | 0 => m
  | n + 1 => fillLoopNtps xmm (setN m p (fun j => xmm (j % 16)) 128) (p + 128) n

/-- The `_Loop` body of Arrays_fill.h: identical stores to `fillLoopNtps` but
through `movaps` (ordinary cached stores). -/
def fillLoopCached {α : Type} (xmm : Nat → α) (m : Mem α) (p : Nat) : Nat → Mem α
  | 0 => m
  | n + 1 => fillLoopCached xmm (setN m p (fun j => xmm (j % 16)) 128) (p + 128) n

/-- The `_Loop2` body of Arrays_fill.h: one `movaps [edi],xmm0` (16 bytes) per
iteration, run `len & 7` times after the 128-byte loops. -/
def fillLoop2 {α : Type} (xmm : Nat → α) (m : Mem α) (p : Nat) : Nat → Mem α
  | 0 => m
  | n + 1 => fillLoop2 xmm (setN m p (fun j => xmm (j % 16)) 16) (p + 16) n

/-- The SSE branch of Arrays_fill.h at byte level.  `pos` is the byte offset
of element `BeginIndex` inside the modelled memory, `addr` its machine
address (only `addr & 31` matters), `lenBytes = Len * sizeof(TYPE)`.
Head: `rep movsb` of `lenStart = 32 - disp` bytes from the filler start;
then xmm0 is loaded from `filler + fillerDisp` (`fillerDisp = lenStart & 15`)
and stored over the body; tail: `rep movsb` of `lenEnd = len & 15` bytes from
`filler + fillerDisp`. -/
def fillSSE {α : Type} (cpu : Nat) (s : Nat) (vb : Nat → α) (m : Mem α)
    (addr pos lenBytes : Nat) : Mem α :=
  let disp := addr &&& 31
  let lenStart := if disp ≠ 0 then 32 - disp else 0
  let fillerDisp := lenStart &&& 15
  let len1 := lenBytes - lenStart
  let lenEnd := len1 &&& 15
  let len16 := len1 / 16
  let xmm : Nat → α := fun j => fillFiller s vb (fillerDisp + j)
  let m1 := setN m pos (fillFiller s vb) lenStart
  let p1 := pos + lenStart
  let m2 := if fillUsesNT cpu len16 then fillLoopNtps xmm m1 p1 (len16 >>> 3)
            else fillLoopCached xmm m1 p1 (len16 >>> 3)
  let p2 := p1 + 128 * (len16 >>> 3)
  let m3 := fillLoop2 xmm m2 p2 (len16 &&& 7)
  let p3 := p2 + 16 * (len16 &&& 7)
  setN m3 p3 (fun k => fillFiller s vb (fillerDisp + k)) lenEnd

/-- One element-write loop of the scalar fill: each iteration stores the `s`
value bytes `vb 0 .. vb (s-1)` at the current element and advances. -/
def fillElems {α : Type} (s : Nat) (vb : Nat → α) (m : Mem α) (pos : Nat) : Nat → Mem α
  | 0 => m
  | n + 1 => fillElems s vb (setN m pos vb s) (pos + s) n

/-- The scalar fallback branch of Arrays_fill.h: `memset` for 1-byte elements,
otherwise LOOP_PREFIX(8*sizeof(TYPE)) (8-fold unrolled element stores plus a
`lenEnd = Len & 7` element tail). -/
def fillScalar {α : Type} (s : Nat) (vb : Nat → α) (m : Mem α) (pos Len : Nat) : Mem α :=
  if s = 1 then setN m pos (fun _ => vb 0) Len
  else
    let sp := loopPrefixPlain s Len (8 * s)
    let m1 := fillElems s vb m pos (8 * sp.1)
    fillElems s vb m1 (pos + 8 * sp.1 * s) sp.2

/-- Branch selection of Arrays_fill.h line 26:
`if ((CpuInfo & CPU_SSE) && (Len*sizeof(TYPE)>32))`. -/
def fillTakesSSE (cpu s Len : Nat) : Bool :=
  hasFlag cpu CPU_SSE && decide (32 < Len * s)

/-- The full fill entry point (SINGLE_PREFIX + Arrays_fill.h): memory is
byte-addressed, the buffer starts at byte address `base` (element `i` of the
array occupies bytes `base + i*s .. base + i*s + s - 1`),
`Len = EndIndex - BeginIndex`. -/
def fillRun {α : Type} (cpu s : Nat) (vb : Nat → α) (m : Mem α)
    (base bIdx eIdx : Nat) : Mem α :=
  let Len := eIdx - bIdx
  let pos := base + bIdx * s
  if fillTakesSSE cpu s Len then fillSSE cpu s vb m pos pos (Len * s)
  else fillScalar s vb m pos Len

/-- One step of `rep movsb`: the byte at destination address `d` receives the
byte at source address `s`; esi/edi then advance. -/
def copyByteStep {α : Type} (m : Mem α) (d s : Nat) : Mem α :=
  fun i => if i = d then m s else m i

/-- A `rep movsb` run of `n` bytes: strictly sequential forward byte copy
through increasing addresses. -/
def movsb {α : Type} (m : Mem α) (d s : Nat) : Nat → Mem α
  | 0 => m
  | n + 1 => movsb (copyByteStep m d s) (d + 1) (s + 1) n

/-- One iteration of the 64-byte SSE copy loops: all 64 source bytes are
loaded into xmm0..xmm3 before any of the 64 destination bytes is stored, so
the block moves atomically. -/
def copyChunk {α : Type} (m : Mem α) (d s csz : Nat) : Mem α :=
  fun i => if d ≤ i ∧ i < d + csz then m (s + (i - d)) else m i

/-- The `_LoopAligned_ntps` loop of copyBytes (`movaps` loads + `movntps`
non-temporal stores), `n` iterations of `csz = 64` bytes. -/
def copyChunksNT {α : Type} (m : Mem α) (d s csz : Nat) : Nat → Mem α
  | 0 => m
  | n + 1 => copyChunksNT (copyChunk m d s csz) (d + csz) (s + csz) csz n

/-- The `_LoopAligned` loop of copyBytes (`movaps` loads and cached stores). -/
def copyChunksAligned {α : Type} (m : Mem α) (d s csz : Nat) : Nat → Mem α
  | 0 => m
  | n + 1 => copyChunksAligned (copyChunk m d s csz) (d + csz) (s + csz) csz n

/-- The `_Loop` loop of copyBytes (`movups` unaligned loads and stores). -/
def copyChunksUnaligned {α : Type} (m : Mem α) (d s csz : Nat) : Nat → Mem α
  | 0 => m
  | n + 1 => copyChunksUnaligned (copyChunk m d s csz) (d + csz) (s + csz) csz n

/-- Reference move semantics (`memmove`): every source byte is read before
any destination byte is written. -/
def memmoveM {α : Type} (m : Mem α) (d s n : Nat) : Mem α :=
  fun i => if d ≤ i ∧ i < d + n then m (s + (i - d)) else m i

/-- The non-temporal decision of copyBytes (ArraysNative.cpp lines 112-118):
the `movntps` loop runs iff the chunk count is nonzero, source and
destination are both 16-byte aligned after the head, and the chunk count is
at least `nonCachedCopyMinLen = (cacheSize/64)/2`. -/
def copyUsesNT (cpu srcA dstA chunks : Nat) : Bool :=
  decide (0 < chunks) && decide (srcA % 16 = 0) && decide (dstA % 16 = 0) &&
    decide (effCacheSize cpu / 64 / 2 ≤ chunks)

/-- Branch selection of copyBytes: `if (CpuInfo & CPU_SSE)`. -/
def copyTakesSSE (cpu : Nat) : Bool := hasFlag cpu CPU_SSE

/-- Java_net_algart_array_ArraysNative_copyBytes: bytes are copied from
source address `src` (`a + Aofs`) to destination address `dst` (`b + Bofs`);
the source and destination may live in the same memory (the same Java array
passed for `A` and `B`), which is what makes the direction of the copy
observable.  The SSE branch aligns the destination via
LOOP_PREFIX_ALIGNED(64), copies the head and tail with `rep movsb` and the
body with 64-byte block moves; the fallback is `memmove`. -/
def copyBytes {α : Type} (cpu : Nat) (m : Mem α) (src dst len : Nat) : Mem α :=
  if copyTakesSSE cpu then
    let sp := loopPrefixAligned dst 1 len 64
    let m1 := movsb m dst src sp.lenStart
    let s1 := src + sp.lenStart
    let d1 := dst + sp.lenStart
    let m2 :=
      if s1 % 16 ≠ 0 ∨ d1 % 16 ≠ 0 then copyChunksUnaligned m1 d1 s1 64 sp.body
      else if effCacheSize cpu / 64 / 2 ≤ sp.body then copyChunksNT m1 d1 s1 64 sp.body
      else copyChunksAligned m1 d1 s1 64 sp.body
    movsb m2 (d1 + 64 * sp.body) (s1 + 64 * sp.body) sp.lenEnd
  else
    memmoveM m dst src len

/-- Scalar compare-and-replace step of the min/max kernels:
`if (*pa CMP *pb) *pa= *pb`, where `gt x y` models `x CMP y`
(`CMP` is `>` for min and `<` for max). -/
def cmpStep {ε : Type} (gt : ε → ε → Bool) (x y : ε) : ε := if gt x y then y else x

/-- Point update of a memory: cell `j0` receives `v`. -/
def updA {ε : Type} (A : Mem ε) (j0 : Nat) (v : ε) : Mem ε :=
  fun i => if i = j0 then v else A i

/-- The sequential element loop
`for (; len>0; len--,pa++,pb++) if (*pa CMP *pb) *pa= *pb;` (also the
unrolled 32-element body of MINBODY_LOOP / MAXBODY_LOOP, whose 32 statements
run in the same order), over `n` elements starting at `A`-index `aofs` and
`B`-index `bofs`. -/
def seqLoop {ε : Type} (gt : ε → ε → Bool) (B : Mem ε) : Mem ε → Nat → Nat → Nat → Mem ε
  | A, _, _, 0 => A
  | A, aofs, bofs, n + 1 =>
    seqLoop gt B (updA A aofs (cmpStep gt (A aofs) (B bofs))) (aofs + 1) (bofs + 1) n

/-- One iteration of a vector min/max loop: a whole block of `csz` elements
of `A` and `B` is loaded, combined element-wise by `body`, and stored back
into `A`.  `body` is the element-wise denotation of the SIMD instructions:
`pminub`/`pmaxub`, the `pxor mask / pminsw / pxor mask` sandwich and the
`pcmpgt/pand/pandn/por` blend all denote the ordered min/max, while
`minps`/`maxps` and `fucomi`/`fcmov` have their own NaN behaviour. -/
def chunkMap {ε : Type} (body : ε → ε → ε) (B : Mem ε) (A : Mem ε) (aofs bofs csz : Nat) :
    Mem ε :=
  fun i => if aofs ≤ i ∧ i < aofs + csz then body (A i) (B (bofs + (i - aofs))) else A i

/-- The vector body loop: `n` block iterations of `csz` elements each. -/
def chunkLoop {ε : Type} (body : ε → ε → ε) (B : Mem ε) :
    Mem ε → Nat → Nat → Nat → Nat → Mem ε
  | A, _, _, _, 0 => A
  | A, aofs, bofs, csz, n + 1 =>
    chunkLoop body B (chunkMap body B A aofs bofs csz) (aofs + csz) (bofs + csz) csz n

/-- MINBODY_LOOP / MAXBODY_LOOP (ArraysMacro.h lines 110-154): the scalar
min/max kernel.  LOOP_PREFIX(32*sizeof(TYPE)) splits `Len` into
`Len / 32` unrolled 32-element iterations plus a `Len & 31` element tail
(`UNLOOPING/sizeof(*pa) = 32`). -/
def minmaxBodyLoop {ε : Type} (gt : ε → ε → Bool) (A B : Mem ε) (aofs bofs Len : Nat) :
    Mem ε :=
  let sp := loopPrefixPlain 1 Len 32
  let A1 := seqLoop gt B A aofs bofs (32 * sp.1)
  seqLoop gt B A1 (aofs + 32 * sp.1) (bofs + 32 * sp.1) sp.2

/-- A vectorized min/max path of Arrays_minmax_int.h / _float.h / _double.h:
LOOP_PREFIX_ALIGNED(U) on the `A` pointer (element size `s`, address
`addrA`), scalar head (`lenStart` elements), block body, scalar tail. -/
def vectorMinmax {ε : Type} (gt : ε → ε → Bool) (body : ε → ε → ε) (A B : Mem ε)
    (addrA s aofs bofs Len U : Nat) : Mem ε :=
  let sp := loopPrefixAligned addrA s Len U
  let unit := U / s
  let A1 := seqLoop gt B A aofs bofs sp.lenStart
  let A2 := chunkLoop body B A1 (aofs + sp.lenStart) (bofs + sp.lenStart) unit sp.body
  seqLoop gt B A2 (aofs + sp.lenStart + unit * sp.body)
    (bofs + sp.lenStart + unit * sp.body) sp.lenEnd

/-- The three dispatch outcomes of the integer min/max kernels. -/
inductive MMBranch where
  | vecA
  | vecB
  | scalar
deriving DecidableEq

/-- Branch selection of Arrays_minmax_int.h: `if (CpuInfo & CPU_MMXEX)` (only
when the MMXEX tier is compiled in, i.e. MINMAX_MMXEX is defined — true for
byte and short, absent for int), else `if (CpuInfo & CPU_MMX)`, else the
scalar C_LOOP.  (The MINMAX_SSE2 tier is never enabled by any caller.) -/
def minmaxIntBranch (mmxexTier : Bool) (cpu : Nat) : MMBranch :=
  if mmxexTier && hasFlag cpu CPU_MMXEX then .vecA
  else if hasFlag cpu CPU_MMX then .vecB
  else .scalar

/-- The integer min/max kernel (Arrays_minmax_int.h): both vector tiers use
LOOP_PREFIX_ALIGNED(32) (32 bytes per block, `32/s` elements) and compute the
same element-wise result as the scalar step. -/
def minmaxIntRun {ε : Type} (gt : ε → ε → Bool) (mmxexTier : Bool) (cpu : Nat)
    (A B : Mem ε) (baseA s aofs bofs Len : Nat) : Mem ε :=
  match minmaxIntBranch mmxexTier cpu with
  | .vecA => vectorMinmax gt (cmpStep gt) A B (baseA + aofs * s) s aofs bofs Len 32
  | .vecB => vectorMinmax gt (cmpStep gt) A B (baseA + aofs * s) s aofs bofs Len 32
  | .scalar => minmaxBodyLoop gt A B aofs bofs Len

/-- Comparison `a > b` on signed element values (also the unsigned-order
comparison when the buffer holds unsigned interpretations). -/
def gtInt (a b : Int) : Bool := decide (b < a)

/-- Comparison `a < b` (the CMP of the max kernels). -/
def ltInt (a b : Int) : Bool := decide (a < b)

/-- Floating-point comparison `a > b`: NaN (`none`) compares false. -/
def fgt : Option Int → Option Int → Bool
  | some a, some b => decide (b < a)
  | _, _ => false

/-- Floating-point comparison `a < b`: NaN (`none`) compares false. -/
def flt : Option Int → Option Int → Bool
  | some a, some b => decide (a < b)
  | _, _ => false

/-- Element denotation of `minps xmm_a, b`: `a < b ? a : b`; on an unordered
compare (either operand NaN) the source operand `b` is returned. -/
def minpsOp (a b : Option Int) : Option Int := if flt a b then a else b

/-- Element denotation of `maxps xmm_a, b`: `a > b ? a : b`; on an unordered
compare the source operand `b` is returned. -/
def maxpsOp (a b : Option Int) : Option Int := if fgt a b then a else b

/-- Element denotation of the x87 min sequence
`fld a; fld b; fucomi st(0),st(1); fcmovnb st(0),st(1); fstp a`:
`fucomi` sets CF iff `b < a` or the compare is unordered, and `fcmovnb`
keeps `b` in st(0) exactly when CF is set, so `a` receives
`(b < a or unordered) ? b : a`. -/
def fcmovMinOp (a b : Option Int) : Option Int :=
  if flt b a || a.isNone || b.isNone then b else a

/-- Element denotation of the x87 max sequence (with `fcmovb`): `a` receives
`(b < a or unordered) ? a : b`. -/
def fcmovMaxOp (a b : Option Int) : Option Int :=
  if flt b a || a.isNone || b.isNone then a else b

/-- The float min/max kernel (Arrays_minmax_float.h): SSE path with
LOOP_PREFIX_ALIGNED(64) (16 elements per block) or the scalar C_LOOP. -/
def minmaxFloatRun (gt : Option Int → Option Int → Bool)
    (body : Option Int → Option Int → Option Int) (cpu : Nat)
    (A B : Mem (Option Int)) (baseA aofs bofs Len : Nat) : Mem (Option Int) :=
  if hasFlag cpu CPU_SSE then
    vectorMinmax gt body A B (baseA + aofs * 4) 4 aofs bofs Len 64
  else minmaxBodyLoop gt A B aofs bofs Len

/-- The double min/max kernel (Arrays_minmax_double.h): x87 CMOV path with
LOOP_PREFIX_ALIGNED(64) (8 elements per block) or the scalar C_LOOP. -/
def minmaxDoubleRun (gt : Option Int → Option Int → Bool)
    (body : Option Int → Option Int → Option Int) (cpu : Nat)
    (A B : Mem (Option Int)) (baseA aofs bofs Len : Nat) : Mem (Option Int) :=
  if hasFlag cpu CPU_CMOV then
    vectorMinmax gt body A B (baseA + aofs * 8) 8 aofs bofs Len 64
  else minmaxBodyLoop gt A B aofs bofs Len

/-- The long min/max entry points apply MINBODY_LOOP / MAXBODY_LOOP directly:
there is no vectorized tier and the descriptor is never consulted. -/
def minmaxLongRun (gt : Int → Int → Bool) (cpu : Nat) (A B : Mem Int)
    (aofs bofs Len : Nat) : Mem Int :=
  minmaxBodyLoop gt A B aofs bofs Len

/-- Modelled from the spec: the kernels Arrays_pminub.h and Arrays_pmaxub.h
(the unsigned-byte minu/maxu bodies included by ArraysNative.cpp) are not
present under src/.  Per the spec (§3 KernelVariant, §4.2 steps 1-4), every
variant of an operation computes the same element-wise result — here the
unsigned byte minimum/maximum written into `A` — and a scalar variant with no
flag requirement is always the last resort; the MMXEX-tier vector variant
(`pminub`/`pmaxub` are CPU_MMXEX instructions) is selected when its flag is
present.  `gt` is `gtInt` for minu and `ltInt` for maxu; buffers hold the
unsigned byte values 0..255. -/
def pminubRun (gt : Int → Int → Bool) (cpu : Nat) (A B : Mem Int)
    (baseA aofs bofs Len : Nat) : Mem Int :=
  if hasFlag cpu CPU_MMXEX then
    vectorMinmax gt (cmpStep gt) A B (baseA + aofs) 1 aofs bofs Len 32
  else minmaxBodyLoop gt A B aofs bofs Len

/-- The JNI entry points (PAIR_PREFIX … PAIR_POSTFIX) pin `A` and `B`, run
the kernel, then release `A` with mode 0 (commit) and `B` with `JNI_ABORT`
(discard): the pair returned is (new `A`, unchanged `B`) — no kernel ever
stores through `pb`.  `min`/`max` on jbyte: MMXEX tier via `pminub`/`pmaxub`
with the `0x80` sign-flip mask, MMX tier via `pcmpgtb` blend, scalar
MINBODY_LOOP/MAXBODY_LOOP; element values are the signed bytes. -/
def minByte (cpu : Nat) (A B : Mem Int) (baseA aofs bofs Len : Nat) : Mem Int × Mem Int :=
  (minmaxIntRun gtInt true cpu A B baseA 1 aofs bofs Len, B)

/-- max on jbyte (CMP is `<`). -/
def maxByte (cpu : Nat) (A B : Mem Int) (baseA aofs bofs Len : Nat) : Mem Int × Mem Int :=
  (minmaxIntRun ltInt true cpu A B baseA 1 aofs bofs Len, B)

/-- min on jshort (signed): MMXEX tier via `pminsw`, MMX tier via `pcmpgtw`
blend, scalar loop. -/
def minShort (cpu : Nat) (A B : Mem Int) (baseA aofs bofs Len : Nat) : Mem Int × Mem Int :=
  (minmaxIntRun gtInt true cpu A B baseA 2 aofs bofs Len, B)

/-- max on jshort (signed). -/
def maxShort (cpu : Nat) (A B : Mem Int) (baseA aofs bofs Len : Nat) : Mem Int × Mem Int :=
  (minmaxIntRun ltInt true cpu A B baseA 2 aofs bofs Len, B)

/-- minu on unsigned short: MMXEX tier via `pxor 0x8000 / pminsw / pxor`,
MMX tier via the masked `pcmpgtw` blend; buffers hold the unsigned values
0..65535 and the comparison is the plain order on those values. -/
def minuShort (cpu : Nat) (A B : Mem Int) (baseA aofs bofs Len : Nat) : Mem Int × Mem Int :=
  (minmaxIntRun gtInt true cpu A B baseA 2 aofs bofs Len, B)

/-- maxu on unsigned short. -/
def maxuShort (cpu : Nat) (A B : Mem Int) (baseA aofs bofs Len : Nat) : Mem Int × Mem Int :=
  (minmaxIntRun ltInt true cpu A B baseA 2 aofs bofs Len, B)

/-- min on jint: no MMXEX tier (MINMAX_MMXEX undefined), MMX tier via
`pcmpgtd` blend, scalar loop. -/
def minInt (cpu : Nat) (A B : Mem Int) (baseA aofs bofs Len : Nat) : Mem Int × Mem Int :=
  (minmaxIntRun gtInt false cpu A B baseA 4 aofs bofs Len, B)

/-- max on jint. -/
def maxInt (cpu : Nat) (A B : Mem Int) (baseA aofs bofs Len : Nat) : Mem Int × Mem Int :=
  (minmaxIntRun ltInt false cpu A B baseA 4 aofs bofs Len, B)

/-- min on jlong: MINBODY_LOOP only, no dispatch. -/
def minLong (cpu : Nat) (A B : Mem Int) (aofs bofs Len : Nat) : Mem Int × Mem Int :=
  (minmaxLongRun gtInt cpu A B aofs bofs Len, B)

/-- max on jlong. -/
def maxLong (cpu : Nat) (A B : Mem Int) (aofs bofs Len : Nat) : Mem Int × Mem Int :=
  (minmaxLongRun ltInt cpu A B aofs bofs Len, B)

/-- min on jfloat: SSE tier via `minps` (NaN: returns the source operand),
scalar loop otherwise. -/
def minFloat (cpu : Nat) (A B : Mem (Option Int)) (baseA aofs bofs Len : Nat) :
    Mem (Option Int) × Mem (Option Int) :=
  (minmaxFloatRun fgt minpsOp cpu A B baseA aofs bofs Len, B)

/-- max on jfloat via `maxps`. -/
def maxFloat (cpu : Nat) (A B : Mem (Option Int)) (baseA aofs bofs Len : Nat) :
    Mem (Option Int) × Mem (Option Int) :=
  (minmaxFloatRun flt maxpsOp cpu A B baseA aofs bofs Len, B)

/-- min on jdouble: x87 `fucomi`/`fcmovnb` tier, scalar loop otherwise. -/
def minDouble (cpu : Nat) (A B : Mem (Option Int)) (baseA aofs bofs Len : Nat) :
    Mem (Option Int) × Mem (Option Int) :=
  (minmaxDoubleRun fgt fcmovMinOp cpu A B baseA aofs bofs Len, B)

/-- max on jdouble via `fcmovb`. -/
def maxDouble (cpu : Nat) (A B : Mem (Option Int)) (baseA aofs bofs Len : Nat) :
    Mem (Option Int) × Mem (Option Int) :=
  (minmaxDoubleRun flt fcmovMaxOp cpu A B baseA aofs bofs Len, B)

/-- minu on unsigned jbyte (spec-modelled kernel, see `pminubRun`). -/
def minuByte (cpu : Nat) (A B : Mem Int) (baseA aofs bofs Len : Nat) : Mem Int × Mem Int :=
  (pminubRun gtInt cpu A B baseA aofs bofs Len, B)

/-- maxu on unsigned jbyte (spec-modelled kernel, see `pminubRun`). -/
def maxuByte (cpu : Nat) (A B : Mem Int) (baseA aofs bofs Len : Nat) : Mem Int × Mem Int :=
  (pminubRun ltInt cpu A B baseA aofs bofs Len, B)

/-- Concrete 3-byte memory [1, 2, 3, 0, 0, …] used to exhibit the behaviour
of the SSE copy on overlapping ranges. -/
def mC : Mem Int := fun i => if i = 0 then 1 else if i = 1 then 2 else if i = 2 then 3 else 0

/-- Concrete all-NaN float buffer. -/
def cexNaN : Mem (Option Int) := fun _ => none

/-- Concrete all-5 float buffer. -/
def cexFive : Mem (Option Int) := fun _ => some 5

/-- Low-dword aliases used inside the probe for the high AMD flags
(ArraysMacro.h lines 36-38): bits 27, 30, 31 of the extended-feature dword,
later shifted up by 32. -/
def CPU_AMD_L : Nat := 1 <<< 27

/-- CPU_3DNOWEX_L, bit 30 of the extended-feature dword. -/
def CPU_3DNOWEX_L : Nat := 1 <<< 30

/-- CPU_3DNOW_L, bit 31 of the extended-feature dword. -/
def CPU_3DNOW_L : Nat := 1 <<< 31

/-- Bitwise complement of `f` inside a 32-bit register (`and edx,~FLAG`). -/
def mask32Not (f : Nat) : Nat := 4294967295 ^^^ f

/-- Observable behaviour of the host processor during one `_cpuInfo` probe:
the register values each `cpuid` leaf would deliver, and whether the
instruction faults (the C++ `catch (...)` case). -/
structure HostCpu where
  traps : Bool
  maxLeaf : Nat
  leaf1eax : Nat
  feat : Nat
  extMax : Nat
  extFeat : Nat
  l1dKB : Nat
  l2KB : Nat
  leaf2a : Nat
  leaf2b : Nat
  leaf2c : Nat
  leaf2d : Nat

/-- One `cpuid(2)` register after the sign clear
`for (j=0; j<4; j++) if (cpuid2regs[j]<0) cpuid2regs[j]= 0;`. -/
def cpuid2clear (h : HostCpu) (j : Nat) : Nat :=
  let v := (match j with
    | 0 => h.leaf2a
    | 1 => h.leaf2b
    | 2 => h.leaf2c
    | _ => h.leaf2d) % 4294967296
  if v.testBit 31 then 0 else v

/-- Byte `k` of the 16-byte little-endian `cpuid2info` array. -/
def cpuid2byte (h : HostCpu) (k : Nat) : Nat :=
  cpuid2clear h (k / 4) >>> (8 * (k % 4)) &&& 255

/-- One step of the Intel cache-descriptor walk (ArraysFunctions.h lines
125-147): `v` is the descriptor byte, the accumulator holds (l1d, l2) in KB.
A high nibble of 4 contributes to L2 only on families ≤ 6 (on newer families
that code point is an ignored L3 descriptor); otherwise it behaves like 8. -/
def descrStep (cpuFamily v : Nat) (acc : Nat × Nat) : Nat × Nat :=
  let vl := v &&& 15
  match v >>> 4 with
  | 0 => if vl = 10 then (acc.1 + 8, acc.2) else if vl = 12 then (acc.1 + 16, acc.2) else acc
  | 4 => if 6 < cpuFamily then acc
         else if vl ≠ 0 then (acc.1, acc.2 + (128 <<< (vl - 1))) else acc
  | 8 => if vl ≠ 0 then (acc.1, acc.2 + (128 <<< (vl - 1))) else acc
  | 6 => if 6 ≤ vl then (acc.1 + (8 <<< (vl - 6)), acc.2) else acc
  | 7 => if 8 ≤ vl then (acc.1, acc.2 + (64 <<< (vl - 8))) else acc
  | _ => acc

/-- The 15-entry descriptor walk (`for (k=1; k<16; k++)`, byte 0 = AL is
skipped). -/
def cacheWalk (cpuFamily : Nat) (h : HostCpu) (acc : Nat × Nat) : Nat × Nat :=
  (List.range 15).foldl (fun a k => descrStep cpuFamily (cpuid2byte h (k + 1)) a) acc

/-- The C post-processing of `_cpuInfo` after the asm block
(ArraysFunctions.h lines 117-153): OR in CPU_MMXEX when CPU_SSE survived,
pack the family, the AMD high flags, and the normalized L1/L2 sizes. -/
def cpuInfoPost (low32 amdFeatures leaf1eax l1d0 l2f0 maxArg : Nat) (h : HostCpu) : Nat :=
  let r1 := if low32 &&& CPU_SSE ≠ 0 then low32 ||| CPU_MMXEX else low32
  let fam0 := (leaf1eax >>> 8) &&& 15
  let cpuFamily := if fam0 = 15 then (leaf1eax >>> 20) &&& 15 else fam0
  let r2 := r1 ||| ((cpuFamily &&& 15) <<< 50)
  let r3 := r2 ||| ((amdFeatures &&& (CPU_AMD_L ||| CPU_3DNOW_L ||| CPU_3DNOWEX_L)) <<< 32)
  let sizes := if amdFeatures = 0 ∧ 2 ≤ maxArg then cacheWalk cpuFamily h (l1d0, l2f0)
               else (l1d0, l2f0)
  let l1d := sizes.1 / 8
  let l2 := sizes.2 / 32
  r3 ||| ((l1d &&& 255) <<< 42) ||| ((l2 &&& 1023) <<< 32)

/-- The base-feature downgrade sequence of the asm block (ArraysFunctions.h
lines 54-65): clear CMOV without FPU, clear SSE and SSE2 without MMX, clear
SSE2 without SSE. -/
def downgradeFeat (d0 : Nat) : Nat :=
  let d1 := if d0 &&& CPU_FPU ≠ 0 then d0 else d0 &&& mask32Not CPU_CMOV
  let d2 := if d1 &&& CPU_MMX ≠ 0 then d1 else d1 &&& mask32Not (CPU_SSE ||| CPU_SSE2)
  if d2 &&& CPU_SSE ≠ 0 then d2 else d2 &&& mask32Not CPU_SSE2

/-- `_cpuInfo` (ArraysFunctions.h lines 29-154): a fault anywhere in the
probe yields exactly 0; `cpuid(0) = 0` skips all feature reads (the family
field is then packed from an uninitialized `cpuid1regEAX`, modelled by
`h.leaf1eax`); otherwise the base features are read and downgraded
(CMOV needs FPU, SSE/SSE2 need MMX, SSE2 needs SSE), then either the AMD
extended path (with its 3DNOWEX-needs-3DNOW downgrade and direct cache-size
reads) or the Intel `cpuid(2)` descriptor walk supplies cache sizes. -/
def cpuInfoCompute (h : HostCpu) : Nat :=
  if h.traps then 0
  else
    let maxLeaf := h.maxLeaf % 4294967296
    if maxLeaf = 0 then cpuInfoPost 0 0 h.leaf1eax 0 0 0 h
    else
      let d3 := downgradeFeat (h.feat % 4294967296)
      let extMax := h.extMax % 4294967296
      if 0x80000005 ≤ extMax then
        let amd0 := (h.extFeat % 4294967296) ||| CPU_AMD_L
        let amd := if amd0 &&& CPU_3DNOW_L ≠ 0 then amd0 else amd0 &&& mask32Not CPU_3DNOWEX_L
        let l2 := if 0x80000006 ≤ extMax then h.l2KB else 0
        cpuInfoPost d3 amd h.leaf1eax h.l1dKB l2 maxLeaf h
      else
        cpuInfoPost d3 0 h.leaf1eax 0 0 maxLeaf h

/-- The downgrade invariant of the spec: no capability flag is set whose
prerequisite flag is absent (CMOV→FPU, SSE∨SSE2→MMX, SSE2→SSE,
3DNOWEX→3DNOW). -/
def downgradeInvariant (r : Nat) : Prop :=
  (hasFlag r CPU_CMOV → hasFlag r CPU_FPU) ∧
  (hasFlag r CPU_SSE ∨ hasFlag r CPU_SSE2 → hasFlag r CPU_MMX) ∧
  (hasFlag r CPU_SSE2 → hasFlag r CPU_SSE) ∧
  (hasFlag r CPU_3DNOWEX → hasFlag r CPU_3DNOW)

/-- A host whose capability-query instruction traps. -/
def hcTrap : HostCpu := ⟨true, 1, 0, 0, 0, 0, 0, 0, 0, 0, 0, 0⟩

/-- A non-trapping host reporting MMX and SSE (and nothing else) in the base
feature dword, with no extended leaves. -/
def hcSSE : HostCpu := ⟨false, 1, 0, CPU_MMX ||| CPU_SSE, 0, 0, 0, 0, 0, 0, 0, 0⟩

theorem setN_lt {α : Type} (m : Mem α) (start : Nat) (src : Nat → α) (n i : Nat)
    (h1 : start ≤ i) (h2 : i < start + n) : setN m start src n i = src (i - start) := by
  simp [setN, h1, h2]

theorem setN_out {α : Type} (m : Mem α) (start : Nat) (src : Nat → α) (n i : Nat)
    (h : i < start ∨ start + n ≤ i) : setN m start src n i = m i := by
  rcases h with h | h <;> simp [setN] <;> omega

theorem hasFlag_shift (x k : Nat) : hasFlag x (1 <<< k) = x.testBit k := by
  have h : x &&& 1 <<< k = (x.testBit k).toNat * 2 ^ k := by
    rw [Nat.shiftLeft_eq, one_mul, Nat.and_two_pow]
  rw [hasFlag, h]
  cases hb : x.testBit k <;> simp

theorem hasFlag_zero (f : Nat) : hasFlag 0 f = false := by
  simp [hasFlag]

theorem fillLoopNtps_apply {α : Type} (xmm : Nat → α) :
    ∀ (n : Nat) (m : Mem α) (p i : Nat),
    fillLoopNtps xmm m p n i =
      if p ≤ i ∧ i < p + 128 * n then xmm ((i - p) % 16) else m i := by
  intro n
  induction n with
  | zero =>
    intro m p i
    rw [fillLoopNtps, if_neg (by omega)]
  | succ k ih =>
    intro m p i
    rw [fillLoopNtps, ih]
    by_cases h1 : p + 128 ≤ i ∧ i < p + 128 + 128 * k
    · rw [if_pos h1, if_pos (by omega)]
      have he : i - p = (i - (p + 128)) + 8 * 16 := by omega
      rw [he, Nat.add_mul_mod_self_right]
    · rw [if_neg h1]
      by_cases h2 : p ≤ i ∧ i < p + 128
      · rw [setN_lt _ _ _ _ _ h2.1 (by omega), if_pos (by omega)]
      · rw [setN_out _ _ _ _ _ (by omega), if_neg (by omega)]

theorem fillLoopCached_apply {α : Type} (xmm : Nat → α) :
    ∀ (n : Nat) (m : Mem α) (p i : Nat),
    fillLoopCached xmm m p n i =
      if p ≤ i ∧ i < p + 128 * n then xmm ((i - p) % 16) else m i := by
  intro n
  induction n with
  | zero =>
    intro m p i
    rw [fillLoopCached, if_neg (by omega)]
  | succ k ih =>
    intro m p i
    rw [fillLoopCached, ih]
    by_cases h1 : p + 128 ≤ i ∧ i < p + 128 + 128 * k
    · rw [if_pos h1, if_pos (by omega)]
      have he : i - p = (i - (p + 128)) + 8 * 16 := by omega
      rw [he, Nat.add_mul_mod_self_right]
    · rw [if_neg h1]
      by_cases h2 : p ≤ i ∧ i < p + 128
      · rw [setN_lt _ _ _ _ _ h2.1 (by omega), if_pos (by omega)]
      · rw [setN_out _ _ _ _ _ (by omega), if_neg (by omega)]

/-- The `movntps` and `movaps` 128-byte fill loops store the same data: the
choice of store instruction never changes buffer contents. -/
theorem fillLoopNtps_eq_cached {α : Type} (xmm : Nat → α) (n : Nat) (m : Mem α) (p : Nat) :
    fillLoopNtps xmm m p n = fillLoopCached xmm m p n := by
  funext i
  rw [fillLoopNtps_apply, fillLoopCached_apply]

theorem fillLoop2_apply {α : Type} (xmm : Nat → α) :
    ∀ (n : Nat) (m : Mem α) (p i : Nat),
    fillLoop2 xmm m p n i =
      if p ≤ i ∧ i < p + 16 * n then xmm ((i - p) % 16) else m i := by
  intro n
  induction n with
  | zero =>
    intro m p i
    rw [fillLoop2, if_neg (by omega)]
  | succ k ih =>
    intro m p i
    rw [fillLoop2, ih]
    by_cases h1 : p + 16 ≤ i ∧ i < p + 16 + 16 * k
    · rw [if_pos h1, if_pos (by omega)]
      have he : i - p = (i - (p + 16)) + 1 * 16 := by omega
      rw [he, Nat.add_mul_mod_self_right]
    · rw [if_neg h1]
      by_cases h2 : p ≤ i ∧ i < p + 16
      · rw [setN_lt _ _ _ _ _ h2.1 (by omega), if_pos (by omega)]
      · rw [setN_out _ _ _ _ _ (by omega), if_neg (by omega)]

theorem fillElems_apply {α : Type} (s : Nat) (vb : Nat → α) (hs : 0 < s) :
    ∀ (n : Nat) (m : Mem α) (pos i : Nat),
    fillElems s vb m pos n i =
      if pos ≤ i ∧ i < pos + n * s then vb ((i - pos) % s) else m i := by
  intro n
  induction n with
  | zero =>
    intro m pos i
    rw [fillElems, if_neg (by omega)]
  | succ k ih =>
    intro m pos i
    have hmul : (k + 1) * s = s + k * s := by ring
    rw [fillElems, ih]
    by_cases h1 : pos + s ≤ i ∧ i < pos + s + k * s
    · rw [if_pos h1, if_pos (by omega)]
      have he : i - pos = (i - (pos + s)) + 1 * s := by omega
      rw [he, Nat.add_mul_mod_self_right]
    · rw [if_neg h1]
      by_cases h2 : pos ≤ i ∧ i < pos + s
      · rw [setN_lt _ _ _ _ _ h2.1 (by omega), if_pos (by omega)]
        rw [Nat.mod_eq_of_lt (by omega)]
      · rw [setN_out _ _ _ _ _ (by omega), if_neg (by omega)]

theorem mod16_add_mod (s t a b : Nat) (ht : 16 = s * t) :
    (a % 16 + b % 16) % s = (a + b) % s := by
  have h1 : a % 16 ≡ a [MOD s] := Nat.mod_mod_of_dvd a ⟨t, ht⟩
  have h2 : b % 16 ≡ b [MOD s] := Nat.mod_mod_of_dvd b ⟨t, ht⟩
  exact h1.add h2

theorem mod_add_mul16 (s t x c : Nat) (ht : 16 = s * t) :
    (x + c * 16) % s = x % s := by
  rw [ht, show x + c * (s * t) = x + c * t * s by ring, Nat.add_mul_mod_self_right]

theorem and31_eq (x : Nat) : x &&& 31 = x % 32 := by
  have h := Nat.and_pow_two_sub_one_eq_mod x 5
  norm_num at h
  exact h

theorem and15_eq (x : Nat) : x &&& 15 = x % 16 := by
  have h := Nat.and_pow_two_sub_one_eq_mod x 4
  norm_num at h
  exact h

theorem and7_eq (x : Nat) : x &&& 7 = x % 8 := by
  have h := Nat.and_pow_two_sub_one_eq_mod x 3
  norm_num at h
  exact h

theorem and31range_eq (x : Nat) : x &&& 31 = x % 32 := and31_eq x

theorem shr3_eq (x : Nat) : x >>> 3 = x / 8 := by
  have h := Nat.shiftRight_eq_div_pow x 3
  norm_num at h
  exact h

/-- Byte-level correctness of the SSE fill branch: provided the element size
divides 16 (true of every kernel type) and `Len*sizeof(TYPE) > 32` (the
branch guard), every byte `k` of the target range receives byte `k % s` of
the fill value — i.e. every element of `[BeginIndex, EndIndex)` becomes `V`,
for any buffer alignment — and all other memory is untouched. -/
theorem fillSSE_core {α : Type} (s t : Nat) (ht : 16 = s * t) (vb : Nat → α) (m : Mem α)
    (pos lenBytes lenStart : Nat) (hls : lenStart ≤ 31) (h32 : 32 < lenBytes) (i : Nat) :
    setN
      (fillLoop2 (fun j => vb ((lenStart % 16 + j) % s))
        (fillLoopCached (fun j => vb ((lenStart % 16 + j) % s))
          (setN m pos (fillFiller s vb) lenStart)
          (pos + lenStart) ((lenBytes - lenStart) / 16 / 8))
        (pos + lenStart + 128 * ((lenBytes - lenStart) / 16 / 8))
        ((lenBytes - lenStart) / 16 % 8))
      (pos + lenStart + 128 * ((lenBytes - lenStart) / 16 / 8) +
        16 * ((lenBytes - lenStart) / 16 % 8))
      (fun k => vb ((lenStart % 16 + k) % s))
      ((lenBytes - lenStart) % 16) i =
      if pos ≤ i ∧ i < pos + lenBytes then vb ((i - pos) % s) else m i := by
  generalize hL : (lenBytes - lenStart) / 16 = L16
  generalize hq : L16 / 8 = q
  generalize hr : L16 % 8 = r
  generalize hE : (lenBytes - lenStart) % 16 = E
  by_cases htl : pos + lenStart + 128 * q + 16 * r ≤ i ∧
      i < pos + lenStart + 128 * q + 16 * r + E
  · rw [setN_lt _ _ _ _ _ htl.1 htl.2, if_pos (by omega)]
    congr 1
    have h1 : (lenStart % 16 + (i - (pos + lenStart + 128 * q + 16 * r))) % s =
        (lenStart + (i - (pos + lenStart + 128 * q + 16 * r))) % s :=
      (show lenStart % 16 ≡ lenStart [MOD s] from
        Nat.mod_mod_of_dvd lenStart ⟨t, ht⟩).add_right _
    rw [h1, show i - pos =
        (lenStart + (i - (pos + lenStart + 128 * q + 16 * r))) + (8 * q + r) * 16 from by omega,
      mod_add_mul16 s t _ _ ht]
  · rw [setN_out _ _ _ _ _ (by omega), fillLoop2_apply]
    by_cases h2r : pos + lenStart + 128 * q ≤ i ∧ i < pos + lenStart + 128 * q + 16 * r
    · rw [if_pos h2r, if_pos (by omega)]
      congr 1
      rw [mod16_add_mod s t _ _ ht,
        show i - pos = (lenStart + (i - (pos + lenStart + 128 * q))) + (8 * q) * 16 from by omega,
        mod_add_mul16 s t _ _ ht]
    · rw [if_neg h2r, fillLoopCached_apply]
      by_cases h2b : pos + lenStart ≤ i ∧ i < pos + lenStart + 128 * q
      · rw [if_pos h2b, if_pos (by omega)]
        congr 1
        rw [mod16_add_mod s t _ _ ht,
          show lenStart + (i - (pos + lenStart)) = i - pos from by omega]
      · rw [if_neg h2b]
        by_cases hhd : pos ≤ i ∧ i < pos + lenStart
        · rw [setN_lt _ _ _ _ _ hhd.1 hhd.2, if_pos (by omega)]
          rfl
        · rw [setN_out _ _ _ _ _ (by omega), if_neg (by omega)]

/-- Byte-level correctness of the SSE fill branch: provided the element size
divides 16 (true of every kernel type) and `Len*sizeof(TYPE) > 32` (the
branch guard), every byte `k` of the target range receives byte `k % s` of
the fill value — i.e. every element of `[BeginIndex, EndIndex)` becomes `V`,
for any buffer alignment — and all other memory is untouched. -/
theorem fillSSE_apply {α : Type} (cpu s : Nat) (vb : Nat → α) (m : Mem α)
    (addr pos lenBytes : Nat) (hs : s ∣ 16) (h32 : 32 < lenBytes) (i : Nat) :
    fillSSE cpu s vb m addr pos lenBytes i =
      if pos ≤ i ∧ i < pos + lenBytes then vb ((i - pos) % s) else m i := by
  obtain ⟨t, ht⟩ := hs
  simp only [fillSSE, fillFiller]
  rw [fillLoopNtps_eq_cached, ite_self]
  simp only [and31_eq, and15_eq, and7_eq, shr3_eq]
  by_cases hd0 : addr % 32 = 0
  · simp only [hd0, ne_eq, not_true_eq_false, if_false, ite_false]
    have h := fillSSE_core s t ht vb m pos lenBytes 0 (by omega) h32 i
    simpa using h
  · simp only [ne_eq, hd0, not_false_eq_true, if_true, ite_true]
    have h := fillSSE_core s t ht vb m pos lenBytes (32 - addr % 32)
      (by have := Nat.mod_lt addr (show 0 < 32 by norm_num); omega) h32 i
    simpa using h

/-- The scalar fill branch writes byte `k % s` of `V` at every byte `k` of
the range and nothing else. -/
theorem fillScalar_apply {α : Type} (s : Nat) (vb : Nat → α) (m : Mem α)
    (pos Len : Nat) (hs1 : 0 < s) (i : Nat) :
    fillScalar s vb m pos Len i =
      if pos ≤ i ∧ i < pos + Len * s then vb ((i - pos) % s) else m i := by
  by_cases h1 : s = 1
  · subst h1
    simp [fillScalar, setN, Nat.mod_one]
  · simp only [fillScalar, if_neg h1, loopPrefixPlain]
    have h8 : 8 * s / s = 8 := Nat.mul_div_cancel 8 hs1
    rw [h8, and7_eq, fillElems_apply s vb hs1, fillElems_apply s vb hs1]
    by_cases hA : pos + 8 * (Len / 8) * s ≤ i ∧ i < pos + 8 * (Len / 8) * s + Len % 8 * s
    · rw [if_pos hA]
      have hc : pos ≤ i ∧ i < pos + Len * s := by
        constructor
        · omega
        · have : 8 * (Len / 8) * s + Len % 8 * s = Len * s := by
            have := Nat.div_add_mod Len 8
            nlinarith [Nat.div_add_mod Len 8]
          omega
      rw [if_pos hc]
      congr 1
      have hi : i - pos = (i - (pos + 8 * (Len / 8) * s)) + (8 * (Len / 8)) * s := by
        have : 8 * (Len / 8) * s = (8 * (Len / 8)) * s := by ring
        omega
      rw [hi, Nat.add_mul_mod_self_right]
    · rw [if_neg hA]
      by_cases hB : pos ≤ i ∧ i < pos + 8 * (Len / 8) * s
      · rw [if_pos hB, if_pos (by
          constructor
          · omega
          · have : 8 * (Len / 8) * s ≤ Len * s := by
              have h9 : 8 * (Len / 8) ≤ Len := by omega
              exact Nat.mul_le_mul_right s h9
            omega)]
      · rw [if_neg hB, if_neg (by
          intro hc
          have : 8 * (Len / 8) * s + Len % 8 * s = Len * s := by
            nlinarith [Nat.div_add_mod Len 8]
          omega)]

/-- The fill entry point, both branches: every byte of
`[base + bIdx*s, base + eIdx*s)` receives the matching byte of `V` and all
other memory keeps its old value, for every capability descriptor. -/
theorem fillRun_apply {α : Type} (cpu s : Nat) (vb : Nat → α) (m : Mem α)
    (base bIdx eIdx : Nat) (hs : s ∣ 16) (i : Nat) :
    fillRun cpu s vb m base bIdx eIdx i =
      if base + bIdx * s ≤ i ∧ i < base + bIdx * s + (eIdx - bIdx) * s then
        vb ((i - (base + bIdx * s)) % s)
      else m i := by
  have hs1 : 0 < s := by
    rcases Nat.eq_zero_or_pos s with h | h
    · subst h
      exact absurd hs (by norm_num)
    · exact h
  simp only [fillRun]
  by_cases hb : fillTakesSSE cpu s (eIdx - bIdx) = true
  · rw [if_pos hb]
    have h32 : 32 < (eIdx - bIdx) * s := by
      have := hb
      unfold fillTakesSSE at this
      rw [Bool.and_eq_true] at this
      exact of_decide_eq_true this.2
    exact fillSSE_apply cpu s vb m _ _ _ hs h32 i
  · rw [if_neg hb]
    exact fillScalar_apply s vb m _ _ hs1 i

theorem and1_eq (x : Nat) : x &&& 1 = x % 2 := by
  simp

theorem and3_eq (x : Nat) : x &&& 3 = x % 4 := by
  have h := Nat.and_pow_two_sub_one_eq_mod x 2
  norm_num at h
  exact h

theorem and63_eq (x : Nat) : x &&& 63 = x % 64 := by
  have h := Nat.and_pow_two_sub_one_eq_mod x 6
  norm_num at h
  exact h

/-- LOOP_PREFIX_ALIGNED partitions exactly: head + body blocks + tail cover
`Len` elements with no gap or overlap, and the head never exceeds `Len`. -/
theorem loopPrefixAligned_cover (addr s Len U : Nat) (hs : ElemSize s)
    (hU : U = 32 ∨ U = 64) :
    (loopPrefixAligned addr s Len U).lenStart +
      U / s * (loopPrefixAligned addr s Len U).body +
      (loopPrefixAligned addr s Len U).lenEnd = Len ∧
    (loopPrefixAligned addr s Len U).lenStart ≤ Len := by
  rcases hs with rfl | rfl | rfl | rfl <;> rcases hU with rfl | rfl <;>
    norm_num [loopPrefixAligned, and31_eq, and63_eq, and15_eq, and7_eq, and3_eq, and1_eq] <;>
    (try split_ifs) <;> dsimp only <;> omega

/-- A forward `rep movsb` run agrees with move semantics whenever the
destination does not start strictly inside the source range (`d ≤ s` or the
ranges are disjoint with `d` past the source). -/
theorem movsb_safe {α : Type} :
    ∀ (n : Nat) (m : Mem α) (d s : Nat), (d ≤ s ∨ s + n ≤ d) →
    ∀ i, movsb m d s n i = memmoveM m d s n i := by
  intro n
  induction n with
  | zero =>
    intro m d s _ i
    rw [movsb, memmoveM]
    rw [if_neg (by omega)]
  | succ k ih =>
    intro m d s hcond i
    rw [movsb, ih _ _ _ (by omega), memmoveM, memmoveM]
    by_cases hid : i = d
    · subst hid
      rw [if_neg (by omega), if_pos (by omega)]
      simp [copyByteStep]
    · by_cases h1 : d + 1 ≤ i ∧ i < d + 1 + k
      · rw [if_pos h1, if_pos (by omega)]
        have hx : s + 1 + (i - (d + 1)) = s + (i - d) := by omega
        rw [hx, copyByteStep, if_neg (by omega)]
      · rw [if_neg h1, if_neg (by omega), copyByteStep, if_neg hid]

/-- The NT 64-byte chunk loop agrees with move semantics under the same
no-bad-overlap condition: each chunk is read in full before it is written. -/
theorem copyChunksNT_safe {α : Type} (csz : Nat) :
    ∀ (n : Nat) (m : Mem α) (d s : Nat), (d ≤ s ∨ s + csz * n ≤ d) →
    ∀ i, copyChunksNT m d s csz n i = memmoveM m d s (csz * n) i := by
  intro n
  induction n with
  | zero =>
    intro m d s _ i
    rw [copyChunksNT, memmoveM]
    rw [if_neg (by omega)]
  | succ k ih =>
    intro m d s hcond i
    have hmul : csz * (k + 1) = csz + csz * k := by ring
    rw [copyChunksNT, ih _ _ _ (by omega), memmoveM, memmoveM]
    by_cases h0 : d ≤ i ∧ i < d + csz
    · rw [if_neg (by omega), if_pos (by omega), copyChunk, if_pos h0]
    · by_cases h1 : d + csz ≤ i ∧ i < d + csz + csz * k
      · rw [if_pos h1, if_pos (by omega)]
        have hx : s + csz + (i - (d + csz)) = s + (i - d) := by omega
        rw [hx, copyChunk, if_neg (by omega)]
      · rw [if_neg h1, if_neg (by omega), copyChunk, if_neg (by omega)]

theorem copyChunksAligned_eq_NT {α : Type} (csz : Nat) :
    ∀ (n : Nat) (m : Mem α) (d s : Nat),
    copyChunksAligned m d s csz n = copyChunksNT m d s csz n := by
  intro n
  induction n with
  | zero => intro m d s; rfl
  | succ k ih => intro m d s; rw [copyChunksAligned, copyChunksNT, ih]

theorem copyChunksUnaligned_eq_NT {α : Type} (csz : Nat) :
    ∀ (n : Nat) (m : Mem α) (d s : Nat),
    copyChunksUnaligned m d s csz n = copyChunksNT m d s csz n := by
  intro n
  induction n with
  | zero => intro m d s; rfl
  | succ k ih => intro m d s; rw [copyChunksUnaligned, copyChunksNT, ih]

/-- copyBytes agrees with `memmove` semantics whenever the destination does
not start strictly inside the source range: under the scalar fallback this is
literally `memmove`, and under the SSE branch the forward head/body/tail
copies never read a byte they have already overwritten. -/
theorem copyBytes_safe {α : Type} (cpu : Nat) (m : Mem α) (src dst len : Nat)
    (hcond : dst ≤ src ∨ src + len ≤ dst) :
    copyBytes cpu m src dst len = memmoveM m dst src len := by
  simp only [copyBytes]
  by_cases hsse : copyTakesSSE cpu = true
  · rw [if_pos hsse]
    obtain ⟨hcov, hh⟩ :=
      loopPrefixAligned_cover dst 1 len 64 (by left; rfl) (by right; rfl)
    norm_num at hcov
    generalize hH : (loopPrefixAligned dst 1 len 64).lenStart = H at hcov hh
    generalize hC : (loopPrefixAligned dst 1 len 64).body = C at hcov
    generalize hT : (loopPrefixAligned dst 1 len 64).lenEnd = T at hcov
    funext i
    have hm1 : ∀ j, movsb m dst src H j = memmoveM m dst src H j :=
      movsb_safe H m dst src (by omega)
    rw [copyChunksAligned_eq_NT, copyChunksUnaligned_eq_NT, ite_self]
    split_ifs with hnt
    all_goals {
      rw [movsb_safe _ _ _ _ (by omega)]
      rw [memmoveM]
      by_cases h3 : dst + H + 64 * C ≤ i ∧ i < dst + H + 64 * C + T
      · rw [if_pos h3]
        have hx : src + H + 64 * C + (i - (dst + H + 64 * C)) = src + (i - dst) := by omega
        rw [hx, copyChunksNT_safe 64 C _ _ _ (by omega), memmoveM,
          if_neg (by omega), hm1, memmoveM, if_neg (by omega), memmoveM,
          if_pos (by omega)]
      · rw [if_neg h3, copyChunksNT_safe 64 C _ _ _ (by omega), memmoveM]
        by_cases h2 : dst + H ≤ i ∧ i < dst + H + 64 * C
        · rw [if_pos h2]
          have hx : src + H + (i - (dst + H)) = src + (i - dst) := by omega
          rw [hx, hm1, memmoveM, if_neg (by omega), memmoveM, if_pos (by omega)]
        · rw [if_neg h2, hm1, memmoveM, memmoveM]
          by_cases h1 : dst ≤ i ∧ i < dst + H
          · rw [if_pos h1, if_pos (by omega)]
          · rw [if_neg h1, if_neg (by omega)]
    }
  · rw [if_neg hsse]

theorem seqLoop_apply {ε : Type} (gt : ε → ε → Bool) (B : Mem ε) :
    ∀ (n : Nat) (A : Mem ε) (aofs bofs i : Nat),
    seqLoop gt B A aofs bofs n i =
      if aofs ≤ i ∧ i < aofs + n then cmpStep gt (A i) (B (bofs + (i - aofs))) else A i := by
  intro n
  induction n with
  | zero =>
    intro A aofs bofs i
    rw [seqLoop, if_neg (by omega)]
  | succ k ih =>
    intro A aofs bofs i
    rw [seqLoop, ih]
    simp only [updA]
    by_cases h0 : i = aofs
    · rw [if_neg (by omega), if_pos h0, if_pos (by omega), h0]
      simp
    · simp only [if_neg h0]
      by_cases h1 : aofs + 1 ≤ i ∧ i < aofs + 1 + k
      · rw [if_pos h1, if_pos (by omega)]
        have hx : bofs + 1 + (i - (aofs + 1)) = bofs + (i - aofs) := by omega
        rw [hx]
      · rw [if_neg h1, if_neg (by omega)]

theorem chunkLoop_apply {ε : Type} (body : ε → ε → ε) (B : Mem ε) (csz : Nat) :
    ∀ (n : Nat) (A : Mem ε) (aofs bofs i : Nat),
    chunkLoop body B A aofs bofs csz n i =
      if aofs ≤ i ∧ i < aofs + csz * n then body (A i) (B (bofs + (i - aofs))) else A i := by
  intro n
  induction n with
  | zero =>
    intro A aofs bofs i
    rw [chunkLoop, if_neg (by omega)]
  | succ k ih =>
    intro A aofs bofs i
    have hmul : csz * (k + 1) = csz + csz * k := by ring
    rw [chunkLoop, ih]
    by_cases h1 : aofs + csz ≤ i ∧ i < aofs + csz + csz * k
    · rw [if_pos h1, if_pos (by omega), chunkMap, if_neg (by omega)]
      have hx : bofs + csz + (i - (aofs + csz)) = bofs + (i - aofs) := by omega
      rw [hx]
    · rw [if_neg h1]
      by_cases h0 : aofs ≤ i ∧ i < aofs + csz
      · rw [chunkMap, if_pos h0, if_pos (by omega)]
      · rw [chunkMap, if_neg h0, if_neg (by omega)]

/-- The scalar min/max kernel is the element-wise compare-and-replace over
`[aofs, aofs + Len)`, everything else untouched. -/
theorem minmaxBodyLoop_apply {ε : Type} (gt : ε → ε → Bool) (A B : Mem ε)
    (aofs bofs Len i : Nat) :
    minmaxBodyLoop gt A B aofs bofs Len i =
      if aofs ≤ i ∧ i < aofs + Len then cmpStep gt (A i) (B (bofs + (i - aofs))) else A i := by
  simp only [minmaxBodyLoop, loopPrefixPlain]
  norm_num [and31_eq]
  rw [seqLoop_apply, seqLoop_apply]
  by_cases h2 : aofs + 32 * (Len / 32) ≤ i ∧ i < aofs + 32 * (Len / 32) + Len % 32
  · rw [if_pos h2, if_neg (by omega), if_pos (by omega)]
    have hx : bofs + 32 * (Len / 32) + (i - (aofs + 32 * (Len / 32))) = bofs + (i - aofs) := by
      omega
    rw [hx]
  · rw [if_neg h2]
    by_cases h1 : aofs ≤ i ∧ i < aofs + 32 * (Len / 32)
    · rw [if_pos h1, if_pos (by omega)]
    · rw [if_neg h1, if_neg (by omega)]

/-- A vectorized min/max path is the element-wise compare-and-replace over
`[aofs, aofs + Len)` whenever the block operation agrees with the scalar step
on the operand values actually present (always true for the integer tiers;
true away from NaN for the float/double tiers). -/
theorem vectorMinmax_apply {ε : Type} (gt : ε → ε → Bool) (body : ε → ε → ε)
    (A B : Mem ε) (addrA s aofs bofs Len U : Nat) (hs : ElemSize s)
    (hU : U = 32 ∨ U = 64)
    (hbody : ∀ k, k < Len →
      body (A (aofs + k)) (B (bofs + k)) = cmpStep gt (A (aofs + k)) (B (bofs + k)))
    (i : Nat) :
    vectorMinmax gt body A B addrA s aofs bofs Len U i =
      if aofs ≤ i ∧ i < aofs + Len then cmpStep gt (A i) (B (bofs + (i - aofs))) else A i := by
  obtain ⟨hcov, hh⟩ := loopPrefixAligned_cover addrA s Len U hs hU
  simp only [vectorMinmax]
  generalize hH : (loopPrefixAligned addrA s Len U).lenStart = H at hcov hh
  generalize hC : (loopPrefixAligned addrA s Len U).body = C at hcov
  generalize hT : (loopPrefixAligned addrA s Len U).lenEnd = T at hcov
  generalize hP : U / s * C = P at hcov
  rw [seqLoop_apply, chunkLoop_apply, seqLoop_apply, hP]
  by_cases h3 : aofs + H + P ≤ i ∧ i < aofs + H + P + T
  · rw [if_pos h3, if_neg (by omega), if_neg (by omega), if_pos (by omega)]
    have hx : bofs + H + P + (i - (aofs + H + P)) = bofs + (i - aofs) := by omega
    rw [hx]
  · rw [if_neg h3]
    by_cases h2 : aofs + H ≤ i ∧ i < aofs + H + P
    · rw [if_pos h2, if_neg (by omega), if_pos (by omega)]
      have hx : bofs + H + (i - (aofs + H)) = bofs + (i - aofs) := by omega
      rw [hx]
      have hb := hbody (i - aofs) (by omega)
      rw [show aofs + (i - aofs) = i from by omega] at hb
      rw [hb]
    · rw [if_neg h2]
      by_cases h1 : aofs ≤ i ∧ i < aofs + H
      · rw [if_pos h1, if_pos (by omega)]
      · rw [if_neg h1, if_neg (by omega)]

theorem and_shift_ne (x k : Nat) : x &&& 1 <<< k ≠ 0 ↔ x.testBit k = true := by
  have h := hasFlag_shift x k
  unfold hasFlag at h
  constructor
  · intro hp
    rw [← h]
    exact decide_eq_true hp
  · intro hb
    exact of_decide_eq_true (h.trans hb)

theorem cond_FPU (x : Nat) : x &&& CPU_FPU ≠ 0 ↔ x.testBit 0 = true := and_shift_ne x 0

theorem cond_MMX (x : Nat) : x &&& CPU_MMX ≠ 0 ↔ x.testBit 23 = true := and_shift_ne x 23

theorem cond_SSE (x : Nat) : x &&& CPU_SSE ≠ 0 ↔ x.testBit 25 = true := and_shift_ne x 25

theorem downgradeFeat_le (d0 : Nat) : downgradeFeat d0 ≤ d0 := by
  simp only [downgradeFeat]
  split_ifs <;>
    first
      | exact Nat.le_refl _
      | exact Nat.and_le_left
      | exact le_trans Nat.and_le_left Nat.and_le_left
      | exact le_trans (le_trans Nat.and_le_left Nat.and_le_left) Nat.and_le_left

/-- The feature downgrade establishes the prerequisite implications on the
low 32 feature bits: CMOV (15) → FPU (0), SSE (25) ∨ SSE2 (26) → MMX (23),
SSE2 (26) → SSE (25). -/
theorem downgradeFeat_inv (d0 : Nat) :
    ((downgradeFeat d0).testBit 15 → (downgradeFeat d0).testBit 0) ∧
    ((downgradeFeat d0).testBit 25 ∨ (downgradeFeat d0).testBit 26 →
      (downgradeFeat d0).testBit 23) ∧
    ((downgradeFeat d0).testBit 26 → (downgradeFeat d0).testBit 25) := by
  have mA0 : (mask32Not CPU_CMOV).testBit 0 = true := by decide
  have mA15 : (mask32Not CPU_CMOV).testBit 15 = false := by decide
  have mA23 : (mask32Not CPU_CMOV).testBit 23 = true := by decide
  have mA25 : (mask32Not CPU_CMOV).testBit 25 = true := by decide
  have mA26 : (mask32Not CPU_CMOV).testBit 26 = true := by decide
  have mB0 : (mask32Not (CPU_SSE ||| CPU_SSE2)).testBit 0 = true := by decide
  have mB15 : (mask32Not (CPU_SSE ||| CPU_SSE2)).testBit 15 = true := by decide
  have mB23 : (mask32Not (CPU_SSE ||| CPU_SSE2)).testBit 23 = true := by decide
  have mB25 : (mask32Not (CPU_SSE ||| CPU_SSE2)).testBit 25 = false := by decide
  have mB26 : (mask32Not (CPU_SSE ||| CPU_SSE2)).testBit 26 = false := by decide
  have mC0 : (mask32Not CPU_SSE2).testBit 0 = true := by decide
  have mC15 : (mask32Not CPU_SSE2).testBit 15 = true := by decide
  have mC23 : (mask32Not CPU_SSE2).testBit 23 = true := by decide
  have mC25 : (mask32Not CPU_SSE2).testBit 25 = true := by decide
  have mC26 : (mask32Not CPU_SSE2).testBit 26 = false := by decide
  simp only [downgradeFeat]
  by_cases h1 : d0 &&& CPU_FPU ≠ 0
  · simp only [if_pos h1]
    by_cases h2 : d0 &&& CPU_MMX ≠ 0
    · simp only [if_pos h2]
      by_cases h3 : d0 &&& CPU_SSE ≠ 0
      · simp only [if_pos h3]
        exact ⟨fun _ => (cond_FPU d0).mp h1, fun _ => (cond_MMX d0).mp h2,
          fun _ => (cond_SSE d0).mp h3⟩
      · simp only [if_neg h3]
        refine ⟨fun _ => ?_, fun _ => ?_, fun hb => ?_⟩
        · rw [Nat.testBit_and, mC0, Bool.and_true]
          exact (cond_FPU d0).mp h1
        · rw [Nat.testBit_and, mC23, Bool.and_true]
          exact (cond_MMX d0).mp h2
        · rw [Nat.testBit_and, mC26, Bool.and_false] at hb
          exact absurd hb (by simp)
    · simp only [if_neg h2]
      by_cases h3 : d0 &&& mask32Not (CPU_SSE ||| CPU_SSE2) &&& CPU_SSE ≠ 0
      · exfalso
        have hb := (cond_SSE _).mp h3
        rw [Nat.testBit_and, mB25, Bool.and_false] at hb
        exact absurd hb (by simp)
      · simp only [if_neg h3]
        refine ⟨fun _ => ?_, fun hb => ?_, fun hb => ?_⟩
        · rw [Nat.testBit_and, mC0, Bool.and_true, Nat.testBit_and, mB0, Bool.and_true]
          exact (cond_FPU d0).mp h1
        · exfalso
          rcases hb with hb | hb
          · rw [Nat.testBit_and, mC25, Bool.and_true, Nat.testBit_and, mB25,
              Bool.and_false] at hb
            exact absurd hb (by simp)
          · rw [Nat.testBit_and, mC26, Bool.and_false] at hb
            exact absurd hb (by simp)
        · exfalso
          rw [Nat.testBit_and, mC26, Bool.and_false] at hb
          exact absurd hb (by simp)
  · simp only [if_neg h1]
    by_cases h2 : d0 &&& mask32Not CPU_CMOV &&& CPU_MMX ≠ 0
    · simp only [if_pos h2]
      by_cases h3 : d0 &&& mask32Not CPU_CMOV &&& CPU_SSE ≠ 0
      · simp only [if_pos h3]
        refine ⟨fun hb => ?_, fun _ => ?_, fun _ => ?_⟩
        · exfalso
          rw [Nat.testBit_and, mA15, Bool.and_false] at hb
          exact absurd hb (by simp)
        · exact (cond_MMX _).mp h2
        · exact (cond_SSE _).mp h3
      · simp only [if_neg h3]
        refine ⟨fun hb => ?_, fun _ => ?_, fun hb => ?_⟩
        · exfalso
          rw [Nat.testBit_and, mC15, Bool.and_true, Nat.testBit_and, mA15,
            Bool.and_false] at hb
          exact absurd hb (by simp)
        · rw [Nat.testBit_and, mC23, Bool.and_true]
          exact (cond_MMX _).mp h2
        · exfalso
          rw [Nat.testBit_and, mC26, Bool.and_false] at hb
          exact absurd hb (by simp)
    · simp only [if_neg h2]
      by_cases h3 : d0 &&& mask32Not CPU_CMOV &&& mask32Not (CPU_SSE ||| CPU_SSE2) &&&
          CPU_SSE ≠ 0
      · exfalso
        have hb := (cond_SSE _).mp h3
        rw [Nat.testBit_and, mB25, Bool.and_false] at hb
        exact absurd hb (by simp)
      · simp only [if_neg h3]
        refine ⟨fun hb => ?_, fun hb => ?_, fun hb => ?_⟩
        · exfalso
          rw [Nat.testBit_and, mC15, Bool.and_true, Nat.testBit_and, mB15, Bool.and_true,
            Nat.testBit_and, mA15, Bool.and_false] at hb
          exact absurd hb (by simp)
        · exfalso
          rcases hb with hb | hb
          · rw [Nat.testBit_and, mC25, Bool.and_true, Nat.testBit_and, mB25,
              Bool.and_false] at hb
            exact absurd hb (by simp)
          · rw [Nat.testBit_and, mC26, Bool.and_false] at hb
            exact absurd hb (by simp)
        · exfalso
          rw [Nat.testBit_and, mC26, Bool.and_false] at hb
          exact absurd hb (by simp)

theorem cpuInfoPost_low (low32 amd e l1 l2 mx : Nat) (h : HostCpu) (k : Nat) (hk : k < 32) :
    (cpuInfoPost low32 amd e l1 l2 mx h).testBit k = low32.testBit k := by
  have h32 : decide (k ≥ 32) = false := decide_eq_false (by omega)
  have h42 : decide (k ≥ 42) = false := decide_eq_false (by omega)
  have h50 : decide (k ≥ 50) = false := decide_eq_false (by omega)
  have h60 : decide (k ≥ 60) = false := decide_eq_false (by omega)
  simp only [cpuInfoPost, Nat.testBit_or, Nat.testBit_shiftLeft, h32, h42, h50,
    Bool.false_and, Bool.or_false]
  by_cases hsse : low32 &&& CPU_SSE ≠ 0
  · rw [if_pos hsse]
    simp only [CPU_MMXEX, Nat.testBit_or, Nat.testBit_shiftLeft, h60, Bool.false_and,
      Bool.or_false]
  · rw [if_neg hsse]

theorem and15_testBit_ge4 (x k : Nat) (hk : 4 ≤ k) : (x &&& 15).testBit k = false :=
  Nat.testBit_eq_false_of_lt
    (lt_of_le_of_lt Nat.and_le_right (by calc (15:Nat) < 2 ^ 4 := by norm_num
                                          _ ≤ 2 ^ k := Nat.pow_le_pow_right (by norm_num) hk))

theorem and255_testBit_ge8 (x k : Nat) (hk : 8 ≤ k) : (x &&& 255).testBit k = false :=
  Nat.testBit_eq_false_of_lt
    (lt_of_le_of_lt Nat.and_le_right (by calc (255:Nat) < 2 ^ 8 := by norm_num
                                          _ ≤ 2 ^ k := Nat.pow_le_pow_right (by norm_num) hk))

theorem and1023_testBit_ge10 (x k : Nat) (hk : 10 ≤ k) : (x &&& 1023).testBit k = false :=
  Nat.testBit_eq_false_of_lt
    (lt_of_le_of_lt Nat.and_le_right (by calc (1023:Nat) < 2 ^ 10 := by norm_num
                                          _ ≤ 2 ^ k := Nat.pow_le_pow_right (by norm_num) hk))

theorem cpuInfoPost_bit60 (low32 amd e l1 l2 mx : Nat) (h : HostCpu)
    (hlow : low32 < 4294967296) :
    (cpuInfoPost low32 amd e l1 l2 mx h).testBit 60 = low32.testBit 25 := by
  have e1 : low32.testBit 60 = false := Nat.testBit_eq_false_of_lt (by omega)
  have e3 : ∀ x : Nat,
      (x &&& (CPU_AMD_L ||| CPU_3DNOW_L ||| CPU_3DNOWEX_L)).testBit 28 = false := by
    intro x
    rw [Nat.testBit_and, show (CPU_AMD_L ||| CPU_3DNOW_L ||| CPU_3DNOWEX_L).testBit 28 =
      false from by decide, Bool.and_false]
  simp only [cpuInfoPost, Nat.testBit_or, Nat.testBit_shiftLeft]
  norm_num [e3, and15_testBit_ge4, and255_testBit_ge8, and1023_testBit_ge10]
  simp only [show Nat.testBit 15 10 = false from by decide,
    show Nat.testBit 255 18 = false from by decide,
    show Nat.testBit 1023 28 = false from by decide,
    Bool.and_false, Bool.or_false]
  by_cases hsse0 : low32 &&& CPU_SSE = 0
  · rw [if_pos hsse0, e1]
    have hb25 : low32.testBit 25 = false := by
      rcases Bool.eq_false_or_eq_true (low32.testBit 25) with hb | hb
      · exact absurd ((cond_SSE low32).mpr hb) (by simp [hsse0])
      · exact hb
    rw [hb25]
  · rw [if_neg hsse0]
    simp only [Nat.testBit_or, e1, show CPU_MMXEX.testBit 60 = true from by decide,
      Bool.false_or]
    exact ((cond_SSE low32).mp hsse0).symm

theorem cpuInfoPost_bit62 (low32 amd e l1 l2 mx : Nat) (h : HostCpu)
    (hlow : low32 < 4294967296) :
    (cpuInfoPost low32 amd e l1 l2 mx h).testBit 62 = amd.testBit 30 := by
  have e1 : low32.testBit 62 = false := Nat.testBit_eq_false_of_lt (by omega)
  have e3 : ∀ x : Nat,
      (x &&& (CPU_AMD_L ||| CPU_3DNOW_L ||| CPU_3DNOWEX_L)).testBit 30 =
        x.testBit 30 := by
    intro x
    rw [Nat.testBit_and, show (CPU_AMD_L ||| CPU_3DNOW_L ||| CPU_3DNOWEX_L).testBit 30 =
      true from by decide, Bool.and_true]
  simp only [cpuInfoPost, Nat.testBit_or, Nat.testBit_shiftLeft]
  norm_num [e3, and15_testBit_ge4, and255_testBit_ge8, and1023_testBit_ge10]
  simp only [show Nat.testBit 15 12 = false from by decide,
    show Nat.testBit 255 20 = false from by decide,
    show Nat.testBit 1023 30 = false from by decide,
    Bool.and_false, Bool.or_false, Bool.false_or]
  by_cases hsse0 : low32 &&& CPU_SSE = 0
  · rw [if_pos hsse0, e1]
    simp
  · rw [if_neg hsse0]
    simp only [Nat.testBit_or, e1, show CPU_MMXEX.testBit 62 = false from by decide,
      Bool.false_or, Bool.or_false]

theorem cpuInfoPost_bit63 (low32 amd e l1 l2 mx : Nat) (h : HostCpu)
    (hlow : low32 < 4294967296) :
    (cpuInfoPost low32 amd e l1 l2 mx h).testBit 63 = amd.testBit 31 := by
  have e1 : low32.testBit 63 = false := Nat.testBit_eq_false_of_lt (by omega)
  have e3 : ∀ x : Nat,
      (x &&& (CPU_AMD_L ||| CPU_3DNOW_L ||| CPU_3DNOWEX_L)).testBit 31 =
        x.testBit 31 := by
    intro x
    rw [Nat.testBit_and, show (CPU_AMD_L ||| CPU_3DNOW_L ||| CPU_3DNOWEX_L).testBit 31 =
      true from by decide, Bool.and_true]
  simp only [cpuInfoPost, Nat.testBit_or, Nat.testBit_shiftLeft]
  norm_num [e3, and15_testBit_ge4, and255_testBit_ge8, and1023_testBit_ge10]
  simp only [show Nat.testBit 15 13 = false from by decide,
    show Nat.testBit 255 21 = false from by decide,
    show Nat.testBit 1023 31 = false from by decide,
    Bool.and_false, Bool.or_false, Bool.false_or]
  by_cases hsse0 : low32 &&& CPU_SSE = 0
  · rw [if_pos hsse0, e1]
    simp
  · rw [if_neg hsse0]
    simp only [Nat.testBit_or, e1, show CPU_MMXEX.testBit 63 = false from by decide,
      Bool.false_or, Bool.or_false]

/-- The downgrade invariant holds for the packed result whenever it holds on
the low feature dword and the AMD dword. -/
theorem cpuInfoPost_inv (low32 amd e l1 l2 mx : Nat) (h : HostCpu)
    (hlow : low32 < 4294967296)
    (hl1 : low32.testBit 15 = true → low32.testBit 0 = true)
    (hl2 : low32.testBit 25 = true ∨ low32.testBit 26 = true → low32.testBit 23 = true)
    (hl3 : low32.testBit 26 = true → low32.testBit 25 = true)
    (hamd : amd.testBit 30 = true → amd.testBit 31 = true) :
    downgradeInvariant (cpuInfoPost low32 amd e l1 l2 mx h) := by
  have c15 : ∀ r : Nat, hasFlag r CPU_CMOV = r.testBit 15 := fun r => hasFlag_shift r 15
  have c0 : ∀ r : Nat, hasFlag r CPU_FPU = r.testBit 0 := fun r => hasFlag_shift r 0
  have c23 : ∀ r : Nat, hasFlag r CPU_MMX = r.testBit 23 := fun r => hasFlag_shift r 23
  have c25 : ∀ r : Nat, hasFlag r CPU_SSE = r.testBit 25 := fun r => hasFlag_shift r 25
  have c26 : ∀ r : Nat, hasFlag r CPU_SSE2 = r.testBit 26 := fun r => hasFlag_shift r 26
  have c62 : ∀ r : Nat, hasFlag r CPU_3DNOWEX = r.testBit 62 := fun r => hasFlag_shift r 62
  have c63 : ∀ r : Nat, hasFlag r CPU_3DNOW = r.testBit 63 := fun r => hasFlag_shift r 63
  unfold downgradeInvariant
  rw [c15, c0, c23, c25, c26, c62, c63]
  rw [cpuInfoPost_low _ _ _ _ _ _ _ 15 (by omega), cpuInfoPost_low _ _ _ _ _ _ _ 0 (by omega),
    cpuInfoPost_low _ _ _ _ _ _ _ 23 (by omega), cpuInfoPost_low _ _ _ _ _ _ _ 25 (by omega),
    cpuInfoPost_low _ _ _ _ _ _ _ 26 (by omega),
    cpuInfoPost_bit62 _ _ _ _ _ _ _ hlow, cpuInfoPost_bit63 _ _ _ _ _ _ _ hlow]
  exact ⟨hl1, hl2, hl3, hamd⟩

/-- Every descriptor the probe can return satisfies the downgrade
invariant. -/
theorem cpuInfoCompute_inv (h : HostCpu) : downgradeInvariant (cpuInfoCompute h) := by
  simp only [cpuInfoCompute]
  by_cases ht : h.traps = true
  · rw [if_pos ht]
    refine ⟨?_, ?_, ?_, ?_⟩ <;> simp [hasFlag_zero]
  · rw [if_neg ht]
    by_cases hml : h.maxLeaf % 4294967296 = 0
    · rw [if_pos hml]
      exact cpuInfoPost_inv 0 0 _ 0 0 0 h (by norm_num) (by simp) (by simp) (by simp)
        (by simp)
    · rw [if_neg hml]
      have hd := downgradeFeat_inv (h.feat % 4294967296)
      have hdlt : downgradeFeat (h.feat % 4294967296) < 4294967296 :=
        lt_of_le_of_lt (downgradeFeat_le _) (Nat.mod_lt _ (by norm_num))
      by_cases hext : 0x80000005 ≤ h.extMax % 4294967296
      · rw [if_pos hext]
        by_cases h3d : (h.extFeat % 4294967296 ||| CPU_AMD_L) &&& CPU_3DNOW_L ≠ 0
        · rw [if_pos h3d]
          refine cpuInfoPost_inv _ _ _ _ _ _ h hdlt hd.1 hd.2.1 hd.2.2 ?_
          intro _
          exact (and_shift_ne _ 31).mp h3d
        · rw [if_neg h3d]
          refine cpuInfoPost_inv _ _ _ _ _ _ h hdlt hd.1 hd.2.1 hd.2.2 ?_
          intro hb30
          exfalso
          rw [Nat.testBit_and,
            show (mask32Not CPU_3DNOWEX_L).testBit 30 = false from by decide,
            Bool.and_false] at hb30
          exact absurd hb30 (by simp)
      · rw [if_neg hext]
        exact cpuInfoPost_inv _ 0 _ 0 0 _ h hdlt hd.1 hd.2.1 hd.2.2 (by simp)

/-- On every host, a descriptor with the SSE bit set also carries the MMXEX
bit: line 117 of ArraysFunctions.h ORs CPU_MMXEX in unconditionally whenever
CPU_SSE survived the downgrade, and nothing later clears bit 60. -/
theorem cpuInfoCompute_sse_mmxex (h : HostCpu) :
    (cpuInfoCompute h).testBit 25 = true → (cpuInfoCompute h).testBit 60 = true := by
  simp only [cpuInfoCompute]
  by_cases ht : h.traps = true
  · rw [if_pos ht]
    simp
  · rw [if_neg ht]
    by_cases hml : h.maxLeaf % 4294967296 = 0
    · rw [if_pos hml]
      intro hb
      rw [cpuInfoPost_low _ _ _ _ _ _ _ 25 (by omega)] at hb
      simp at hb
    · rw [if_neg hml]
      have hdlt : downgradeFeat (h.feat % 4294967296) < 4294967296 :=
        lt_of_le_of_lt (downgradeFeat_le _) (Nat.mod_lt _ (by norm_num))
      by_cases hext : 0x80000005 ≤ h.extMax % 4294967296
      · rw [if_pos hext]
        intro hb
        rw [cpuInfoPost_low _ _ _ _ _ _ _ 25 (by omega)] at hb
        rw [cpuInfoPost_bit60 _ _ _ _ _ _ _ hdlt]
        exact hb
      · rw [if_neg hext]
        intro hb
        rw [cpuInfoPost_low _ _ _ _ _ _ _ 25 (by omega)] at hb
        rw [cpuInfoPost_bit60 _ _ _ _ _ _ _ hdlt]
        exact hb

/-- Piecewise characterization of a vector path: inside the covered range the
block region applies `body` and the scalar head/tail apply `cmpStep`;
everything outside is untouched. -/
theorem vectorMinmax_applyPW {ε : Type} (gt : ε → ε → Bool) (body : ε → ε → ε)
    (A B : Mem ε) (addrA s aofs bofs Len U : Nat) (hs : ElemSize s)
    (hU : U = 32 ∨ U = 64) (i : Nat) :
    vectorMinmax gt body A B addrA s aofs bofs Len U i =
      if aofs ≤ i ∧ i < aofs + Len then
        (if aofs + (loopPrefixAligned addrA s Len U).lenStart ≤ i ∧
            i < aofs + (loopPrefixAligned addrA s Len U).lenStart +
              U / s * (loopPrefixAligned addrA s Len U).body
         then body (A i) (B (bofs + (i - aofs)))
         else cmpStep gt (A i) (B (bofs + (i - aofs))))
      else A i := by
  obtain ⟨hcov, hh⟩ := loopPrefixAligned_cover addrA s Len U hs hU
  simp only [vectorMinmax]
  generalize hH : (loopPrefixAligned addrA s Len U).lenStart = H at hcov hh ⊢
  generalize hC : (loopPrefixAligned addrA s Len U).body = C at hcov ⊢
  generalize hT : (loopPrefixAligned addrA s Len U).lenEnd = T at hcov
  generalize hP : U / s * C = P at hcov ⊢
  rw [seqLoop_apply, chunkLoop_apply, seqLoop_apply, hP]
  by_cases h3 : aofs + H + P ≤ i ∧ i < aofs + H + P + T
  · rw [if_pos h3, if_neg (by omega), if_neg (by omega), if_pos (by omega),
      if_neg (by omega)]
    have hx : bofs + H + P + (i - (aofs + H + P)) = bofs + (i - aofs) := by omega
    rw [hx]
  · rw [if_neg h3]
    by_cases h2 : aofs + H ≤ i ∧ i < aofs + H + P
    · rw [if_pos h2, if_neg (by omega), if_pos (by omega), if_pos (by omega)]
      have hx : bofs + H + (i - (aofs + H)) = bofs + (i - aofs) := by omega
      rw [hx]
    · rw [if_neg h2]
      by_cases h1 : aofs ≤ i ∧ i < aofs + H
      · rw [if_pos h1, if_pos (by omega), if_neg (by omega)]
      · rw [if_neg h1, if_neg (by omega)]

/-- The integer min/max dispatcher is the element-wise compare-and-replace
over `[aofs, aofs + Len)` for every descriptor and every branch. -/
theorem minmaxIntRun_apply {ε : Type} (gt : ε → ε → Bool) (mmxexTier : Bool) (cpu : Nat)
    (A B : Mem ε) (baseA s aofs bofs Len : Nat) (hs : ElemSize s) (i : Nat) :
    minmaxIntRun gt mmxexTier cpu A B baseA s aofs bofs Len i =
      if aofs ≤ i ∧ i < aofs + Len then cmpStep gt (A i) (B (bofs + (i - aofs))) else A i := by
  unfold minmaxIntRun
  rcases hb : minmaxIntBranch mmxexTier cpu <;> simp only []
  · exact vectorMinmax_apply gt (cmpStep gt) A B _ s aofs bofs Len 32 hs (by left; rfl)
      (fun _ _ => rfl) i
  · exact vectorMinmax_apply gt (cmpStep gt) A B _ s aofs bofs Len 32 hs (by left; rfl)
      (fun _ _ => rfl) i
  · exact minmaxBodyLoop_apply gt A B aofs bofs Len i

/-- The float min/max dispatcher, characterized pointwise under the
hypothesis that the SIMD block operation agrees with the scalar step on the
operand values present (true away from NaN). -/
theorem minmaxFloatRun_apply (gt : Option Int → Option Int → Bool)
    (body : Option Int → Option Int → Option Int) (cpu : Nat)
    (A B : Mem (Option Int)) (baseA aofs bofs Len : Nat)
    (hbody : ∀ k, k < Len →
      body (A (aofs + k)) (B (bofs + k)) = cmpStep gt (A (aofs + k)) (B (bofs + k)))
    (i : Nat) :
    minmaxFloatRun gt body cpu A B baseA aofs bofs Len i =
      if aofs ≤ i ∧ i < aofs + Len then cmpStep gt (A i) (B (bofs + (i - aofs))) else A i := by
  unfold minmaxFloatRun
  split
  · exact vectorMinmax_apply gt body A B _ 4 aofs bofs Len 64 (by right; right; left; rfl)
      (by right; rfl) hbody i
  · exact minmaxBodyLoop_apply gt A B aofs bofs Len i

/-- The double min/max dispatcher, pointwise, same hypothesis as the float
one. -/
theorem minmaxDoubleRun_apply (gt : Option Int → Option Int → Bool)
    (body : Option Int → Option Int → Option Int) (cpu : Nat)
    (A B : Mem (Option Int)) (baseA aofs bofs Len : Nat)
    (hbody : ∀ k, k < Len →
      body (A (aofs + k)) (B (bofs + k)) = cmpStep gt (A (aofs + k)) (B (bofs + k)))
    (i : Nat) :
    minmaxDoubleRun gt body cpu A B baseA aofs bofs Len i =
      if aofs ≤ i ∧ i < aofs + Len then cmpStep gt (A i) (B (bofs + (i - aofs))) else A i := by
  unfold minmaxDoubleRun
  split
  · exact vectorMinmax_apply gt body A B _ 8 aofs bofs Len 64 (by right; right; right; rfl)
      (by right; rfl) hbody i
  · exact minmaxBodyLoop_apply gt A B aofs bofs Len i

/-- The spec-modelled unsigned-byte minu/maxu dispatcher, pointwise. -/
theorem pminubRun_apply (gt : Int → Int → Bool) (cpu : Nat) (A B : Mem Int)
    (baseA aofs bofs Len : Nat) (i : Nat) :
    pminubRun gt cpu A B baseA aofs bofs Len i =
      if aofs ≤ i ∧ i < aofs + Len then cmpStep gt (A i) (B (bofs + (i - aofs))) else A i := by
  unfold pminubRun
  split
  · exact vectorMinmax_apply gt (cmpStep gt) A B _ 1 aofs bofs Len 32 (by left; rfl)
      (by left; rfl) (fun _ _ => rfl) i
  · exact minmaxBodyLoop_apply gt A B aofs bofs Len i

theorem cmpStep_gtInt (a b : Int) : cmpStep gtInt a b = min a b := by
  simp only [cmpStep, gtInt]
  split_ifs with h <;> simp_all <;> omega

theorem cmpStep_ltInt (a b : Int) : cmpStep ltInt a b = max a b := by
  simp only [cmpStep, ltInt]
  split_ifs with h <;> simp_all <;> omega

theorem cmpStep_fgt (x y : Int) : cmpStep fgt (some x) (some y) = some (min x y) := by
  simp only [cmpStep, fgt]
  split_ifs with h <;> simp_all <;> congr 1 <;> omega

theorem cmpStep_flt (x y : Int) : cmpStep flt (some x) (some y) = some (max x y) := by
  simp only [cmpStep, flt]
  split_ifs with h <;> simp_all <;> congr 1 <;> omega

theorem minpsOp_eq_cmpStep (a b : Option Int) (ha : a ≠ none) (hb : b ≠ none) :
    minpsOp a b = cmpStep fgt a b := by
  rcases a with _ | x
  · exact absurd rfl ha
  rcases b with _ | y
  · exact absurd rfl hb
  simp only [minpsOp, cmpStep, flt, fgt]
  split_ifs with h1 h2 <;> simp_all <;> congr 1 <;> omega

theorem maxpsOp_eq_cmpStep (a b : Option Int) (ha : a ≠ none) (hb : b ≠ none) :
    maxpsOp a b = cmpStep flt a b := by
  rcases a with _ | x
  · exact absurd rfl ha
  rcases b with _ | y
  · exact absurd rfl hb
  simp only [maxpsOp, cmpStep, flt, fgt]
  split_ifs with h1 h2 <;> simp_all <;> congr 1 <;> omega

theorem fcmovMinOp_eq_cmpStep (a b : Option Int) (ha : a ≠ none) (hb : b ≠ none) :
    fcmovMinOp a b = cmpStep fgt a b := by
  rcases a with _ | x
  · exact absurd rfl ha
  rcases b with _ | y
  · exact absurd rfl hb
  simp only [fcmovMinOp, cmpStep, flt, fgt, Option.isNone_some, Bool.or_false]

theorem fcmovMaxOp_eq_cmpStep (a b : Option Int) (ha : a ≠ none) (hb : b ≠ none) :
    fcmovMaxOp a b = cmpStep flt a b := by
  rcases a with _ | x
  · exact absurd rfl ha
  rcases b with _ | y
  · exact absurd rfl hb
  simp only [fcmovMaxOp, cmpStep, flt, fgt, Option.isNone_some, Bool.or_false]
  split_ifs with h1 h2 <;> simp_all <;> congr 1 <;> omega

theorem cmpStep_idem {ε : Type} (gt : ε → ε → Bool) (a b : ε) :
    cmpStep gt (cmpStep gt a b) b = cmpStep gt a b := by
  simp only [cmpStep]
  by_cases h : gt a b = true
  · rw [if_pos h]
    split_ifs <;> rfl
  · rw [if_neg h, if_neg h]

theorem minpsOp_idem (a b : Option Int) : minpsOp (minpsOp a b) b = minpsOp a b := by
  rcases a with _ | x <;> rcases b with _ | y <;>
    simp [minpsOp, flt] <;> split_ifs <;> simp_all <;> omega

theorem maxpsOp_idem (a b : Option Int) : maxpsOp (maxpsOp a b) b = maxpsOp a b := by
  rcases a with _ | x <;> rcases b with _ | y <;>
    simp [maxpsOp, fgt] <;> split_ifs <;> simp_all <;> omega

theorem fcmovMinOp_idem (a b : Option Int) :
    fcmovMinOp (fcmovMinOp a b) b = fcmovMinOp a b := by
  rcases a with _ | x <;> rcases b with _ | y <;>
    simp [fcmovMinOp, flt] <;> split_ifs <;> simp_all <;> omega

theorem fcmovMaxOp_idem (a b : Option Int) :
    fcmovMaxOp (fcmovMaxOp a b) b = fcmovMaxOp a b := by
  rcases a with _ | x <;> rcases b with _ | y <;>
    simp [fcmovMaxOp, flt] <;> split_ifs <;> simp_all <;> omega

theorem minmaxBodyLoop_idem {ε : Type} (gt : ε → ε → Bool) (A B : Mem ε)
    (aofs bofs Len : Nat) :
    minmaxBodyLoop gt (minmaxBodyLoop gt A B aofs bofs Len) B aofs bofs Len =
      minmaxBodyLoop gt A B aofs bofs Len := by
  funext i
  rw [minmaxBodyLoop_apply, minmaxBodyLoop_apply]
  by_cases hin : aofs ≤ i ∧ i < aofs + Len
  · rw [if_pos hin, if_pos hin, cmpStep_idem]
  · rw [if_neg hin, if_neg hin]

theorem vectorMinmax_idem {ε : Type} (gt : ε → ε → Bool) (body : ε → ε → ε)
    (A B : Mem ε) (addrA s aofs bofs Len U : Nat) (hs : ElemSize s)
    (hU : U = 32 ∨ U = 64) (hidem : ∀ a b, body (body a b) b = body a b) :
    vectorMinmax gt body (vectorMinmax gt body A B addrA s aofs bofs Len U) B
        addrA s aofs bofs Len U =
      vectorMinmax gt body A B addrA s aofs bofs Len U := by
  funext i
  rw [vectorMinmax_applyPW gt body _ B addrA s aofs bofs Len U hs hU i,
    vectorMinmax_applyPW gt body A B addrA s aofs bofs Len U hs hU i]
  by_cases hin : aofs ≤ i ∧ i < aofs + Len
  · rw [if_pos hin, if_pos hin]
    by_cases hbd : aofs + (loopPrefixAligned addrA s Len U).lenStart ≤ i ∧
        i < aofs + (loopPrefixAligned addrA s Len U).lenStart +
          U / s * (loopPrefixAligned addrA s Len U).body
    · rw [if_pos hbd, if_pos hbd, hidem]
    · rw [if_neg hbd, if_neg hbd, cmpStep_idem]
  · rw [if_neg hin, if_neg hin]

/-- Pointwise value of the float dispatcher at a position whose operands are
not NaN: the scalar step, on every branch. -/
theorem minmaxFloatRun_local (gt : Option Int → Option Int → Bool)
    (body : Option Int → Option Int → Option Int) (cpu : Nat)
    (A B : Mem (Option Int)) (baseA aofs bofs Len i : Nat)
    (hlocal : ∀ a b : Option Int, a ≠ none → b ≠ none → body a b = cmpStep gt a b)
    (hin : aofs ≤ i ∧ i < aofs + Len) (hA : A i ≠ none)
    (hB : B (bofs + (i - aofs)) ≠ none) :
    minmaxFloatRun gt body cpu A B baseA aofs bofs Len i =
      cmpStep gt (A i) (B (bofs + (i - aofs))) := by
  unfold minmaxFloatRun
  split
  · rw [vectorMinmax_applyPW gt body A B _ 4 aofs bofs Len 64
      (by right; right; left; rfl) (by right; rfl) i, if_pos hin]
    split
    · exact hlocal _ _ hA hB
    · rfl
  · rw [minmaxBodyLoop_apply, if_pos hin]

theorem minmaxFloatRun_frame (gt : Option Int → Option Int → Bool)
    (body : Option Int → Option Int → Option Int) (cpu : Nat)
    (A B : Mem (Option Int)) (baseA aofs bofs Len i : Nat)
    (hout : ¬(aofs ≤ i ∧ i < aofs + Len)) :
    minmaxFloatRun gt body cpu A B baseA aofs bofs Len i = A i := by
  unfold minmaxFloatRun
  split
  · rw [vectorMinmax_applyPW gt body A B _ 4 aofs bofs Len 64
      (by right; right; left; rfl) (by right; rfl) i, if_neg hout]
  · rw [minmaxBodyLoop_apply, if_neg hout]

theorem minmaxDoubleRun_local (gt : Option Int → Option Int → Bool)
    (body : Option Int → Option Int → Option Int) (cpu : Nat)
    (A B : Mem (Option Int)) (baseA aofs bofs Len i : Nat)
    (hlocal : ∀ a b : Option Int, a ≠ none → b ≠ none → body a b = cmpStep gt a b)
    (hin : aofs ≤ i ∧ i < aofs + Len) (hA : A i ≠ none)
    (hB : B (bofs + (i - aofs)) ≠ none) :
    minmaxDoubleRun gt body cpu A B baseA aofs bofs Len i =
      cmpStep gt (A i) (B (bofs + (i - aofs))) := by
  unfold minmaxDoubleRun
  split
  · rw [vectorMinmax_applyPW gt body A B _ 8 aofs bofs Len 64
      (by right; right; right; rfl) (by right; rfl) i, if_pos hin]
    split
    · exact hlocal _ _ hA hB
    · rfl
  · rw [minmaxBodyLoop_apply, if_pos hin]

theorem minmaxDoubleRun_frame (gt : Option Int → Option Int → Bool)
    (body : Option Int → Option Int → Option Int) (cpu : Nat)
    (A B : Mem (Option Int)) (baseA aofs bofs Len i : Nat)
    (hout : ¬(aofs ≤ i ∧ i < aofs + Len)) :
    minmaxDoubleRun gt body cpu A B baseA aofs bofs Len i = A i := by
  unfold minmaxDoubleRun
  split
  · rw [vectorMinmax_applyPW gt body A B _ 8 aofs bofs Len 64
      (by right; right; right; rfl) (by right; rfl) i, if_neg hout]
  · rw [minmaxBodyLoop_apply, if_neg hout]

theorem minmaxFloatRun_idem (gt : Option Int → Option Int → Bool)
    (body : Option Int → Option Int → Option Int) (cpu : Nat)
    (A B : Mem (Option Int)) (baseA aofs bofs Len : Nat)
    (hidem : ∀ a b, body (body a b) b = body a b) :
    minmaxFloatRun gt body cpu (minmaxFloatRun gt body cpu A B baseA aofs bofs Len) B
        baseA aofs bofs Len =
      minmaxFloatRun gt body cpu A B baseA aofs bofs Len := by
  by_cases hsse : hasFlag cpu CPU_SSE = true
  · simp only [minmaxFloatRun, hsse, if_true]
    exact vectorMinmax_idem gt body A B _ 4 aofs bofs Len 64
      (by right; right; left; rfl) (by right; rfl) hidem
  · simp only [minmaxFloatRun, hsse, if_false, Bool.false_eq_true]
    exact minmaxBodyLoop_idem gt A B aofs bofs Len

theorem minmaxDoubleRun_idem (gt : Option Int → Option Int → Bool)
    (body : Option Int → Option Int → Option Int) (cpu : Nat)
    (A B : Mem (Option Int)) (baseA aofs bofs Len : Nat)
    (hidem : ∀ a b, body (body a b) b = body a b) :
    minmaxDoubleRun gt body cpu (minmaxDoubleRun gt body cpu A B baseA aofs bofs Len) B
        baseA aofs bofs Len =
      minmaxDoubleRun gt body cpu A B baseA aofs bofs Len := by
  by_cases hcm : hasFlag cpu CPU_CMOV = true
  · simp only [minmaxDoubleRun, hcm, if_true]
    exact vectorMinmax_idem gt body A B _ 8 aofs bofs Len 64
      (by right; right; right; rfl) (by right; rfl) hidem
  · simp only [minmaxDoubleRun, hcm, if_false, Bool.false_eq_true]
    exact minmaxBodyLoop_idem gt A B aofs bofs Len

theorem minmaxIntRun_idem {ε : Type} (gt : ε → ε → Bool) (t : Bool) (cpu : Nat)
    (A B : Mem ε) (baseA s aofs bofs Len : Nat) (hs : ElemSize s) :
    minmaxIntRun gt t cpu (minmaxIntRun gt t cpu A B baseA s aofs bofs Len) B
        baseA s aofs bofs Len =
      minmaxIntRun gt t cpu A B baseA s aofs bofs Len := by
  funext i
  rw [minmaxIntRun_apply gt t cpu (minmaxIntRun gt t cpu A B baseA s aofs bofs Len) B
      baseA s aofs bofs Len hs i,
    minmaxIntRun_apply gt t cpu A B baseA s aofs bofs Len hs i]
  by_cases hin : aofs ≤ i ∧ i < aofs + Len
  · rw [if_pos hin, if_pos hin, cmpStep_idem]
  · rw [if_neg hin, if_neg hin]

theorem pminubRun_idem (gt : Int → Int → Bool) (cpu : Nat) (A B : Mem Int)
    (baseA aofs bofs Len : Nat) :
    pminubRun gt cpu (pminubRun gt cpu A B baseA aofs bofs Len) B baseA aofs bofs Len =
      pminubRun gt cpu A B baseA aofs bofs Len := by
  funext i
  rw [pminubRun_apply gt cpu (pminubRun gt cpu A B baseA aofs bofs Len) B
      baseA aofs bofs Len i,
    pminubRun_apply gt cpu A B baseA aofs bofs Len i]
  by_cases hin : aofs ≤ i ∧ i < aofs + Len
  · rw [if_pos hin, if_pos hin, cmpStep_idem]
  · rw [if_neg hin, if_neg hin]

theorem effCacheSize_dvd128 (cpu : Nat) : 128 ∣ effCacheSize cpu := by
  simp only [effCacheSize]
  split_ifs
  · exact ⟨512, rfl⟩
  · exact ⟨(cpu >>> 32 &&& 1023) * 256, by ring⟩

/-- C6: every capability descriptor returned by the probe satisfies the
downgrade invariant: CMOV implies FPU, SSE or SSE2 implies MMX, SSE2 implies
SSE, and 3DNOWEX implies 3DNOW — no flag claims a capability whose
prerequisite is absent. -/
theorem c6_probe_downgrade_invariant : ∀ h : HostCpu, downgradeInvariant (cpuInfoCompute h) :=
  cpuInfoCompute_inv

/-- C10: on every non-trapping host, whenever the returned descriptor has the
CPU_SSE flag (bit 25) it also has the CPU_MMXEX flag (bit 60),
unconditionally — the probe ORs CPU_MMXEX in for any SSE-capable processor
rather than querying the vendor. -/
theorem c10_sse_implies_mmxex (h : HostCpu) (hnt : h.traps = false)
    (hsse : hasFlag (cpuInfoCompute h) CPU_SSE = true) :
    hasFlag (cpuInfoCompute h) CPU_MMXEX = true := by
  have h25 : (cpuInfoCompute h).testBit 25 = true := by
    rw [← hasFlag_shift]
    exact hsse
  have h60 := cpuInfoCompute_sse_mmxex h h25
  rw [show CPU_MMXEX = 1 <<< 60 from rfl, hasFlag_shift]
  exact h60

theorem c10_witness :
    hcSSE.traps = false ∧ hasFlag (cpuInfoCompute hcSSE) CPU_SSE = true ∧
      hasFlag (cpuInfoCompute hcSSE) CPU_MMXEX = true :=
  ⟨rfl, by decide, c10_sse_implies_mmxex hcSSE rfl (by decide)⟩

/-- C5: a trapping capability query yields exactly the descriptor 0, with no
error surfaced; and under descriptor 0 every operation's dispatch takes the
scalar fallback branch (memmove / memset / plain C loop) for every element
type. -/
theorem c5_probe_failure_scalar_dispatch :
    (∀ h : HostCpu, h.traps = true → cpuInfoCompute h = 0) ∧
    (∀ s Len : Nat, fillTakesSSE 0 s Len = false) ∧
    copyTakesSSE 0 = false ∧
    (∀ t : Bool, minmaxIntBranch t 0 = MMBranch.scalar) ∧
    (∀ (gt : Option Int → Option Int → Bool) (body : Option Int → Option Int → Option Int)
      (A B : Mem (Option Int)) (baseA aofs bofs Len : Nat),
      minmaxFloatRun gt body 0 A B baseA aofs bofs Len =
        minmaxBodyLoop gt A B aofs bofs Len) ∧
    (∀ (gt : Option Int → Option Int → Bool) (body : Option Int → Option Int → Option Int)
      (A B : Mem (Option Int)) (baseA aofs bofs Len : Nat),
      minmaxDoubleRun gt body 0 A B baseA aofs bofs Len =
        minmaxBodyLoop gt A B aofs bofs Len) ∧
    (∀ (gt : Int → Int → Bool) (cpu : Nat) (A B : Mem Int) (aofs bofs Len : Nat),
      minmaxLongRun gt cpu A B aofs bofs Len = minmaxBodyLoop gt A B aofs bofs Len) ∧
    (∀ (gt : Int → Int → Bool) (A B : Mem Int) (baseA aofs bofs Len : Nat),
      pminubRun gt 0 A B baseA aofs bofs Len = minmaxBodyLoop gt A B aofs bofs Len) := by
  refine ⟨?_, ?_, ?_, ?_, ?_, ?_, ?_, ?_⟩
  · intro h ht
    simp [cpuInfoCompute, ht]
  · intro s Len
    simp [fillTakesSSE, hasFlag_zero]
  · simp [copyTakesSSE, hasFlag_zero]
  · intro t
    simp [minmaxIntBranch, hasFlag_zero]
  · intro gt body A B baseA aofs bofs Len
    simp [minmaxFloatRun, hasFlag_zero]
  · intro gt body A B baseA aofs bofs Len
    simp [minmaxDoubleRun, hasFlag_zero]
  · intro gt cpu A B aofs bofs Len
    rfl
  · intro gt A B baseA aofs bofs Len
    simp [pminubRun, hasFlag_zero]

theorem c5_witness : hcTrap.traps = true ∧ cpuInfoCompute hcTrap = 0 :=
  ⟨rfl, c5_probe_failure_scalar_dispatch.1 hcTrap rfl⟩

/-- C8 counterexample: at address 31 (one byte below a 32-byte boundary),
element size 1, U = 32 and requested length 5, the buffer is unaligned and
the length 5 is shorter than one body unit (32 elements), yet the computed
head length is 1, not 0 — the macro only zeroes the head when the length is
shorter than the head itself. -/
theorem c8_counterexample :
    (loopPrefixAligned 31 1 5 32).lenStart ≠ 0 ∧ 5 < 32 / 1 ∧ (31 : Nat) % 32 ≠ 0 := by
  decide

/-- C8 (amended): for every address, kernel element size and U ∈ {32, 64},
LOOP_PREFIX_ALIGNED partitions exactly (head + body blocks + tail = Len with
no overlap or gap, head ≤ Len); a non-zero head makes the body start
32-byte aligned; an aligned buffer gets head 0; and the head collapses to 0
whenever the requested length is smaller than the head candidate
`(32 - disp)/sizeof` (not, as the claim stated, whenever it is smaller than
one body unit). -/
theorem c8_loop_partition (addr s Len U : Nat) (hs : ElemSize s) (hU : U = 32 ∨ U = 64) :
    (loopPrefixAligned addr s Len U).lenStart + U / s * (loopPrefixAligned addr s Len U).body +
        (loopPrefixAligned addr s Len U).lenEnd = Len ∧
    (loopPrefixAligned addr s Len U).lenStart ≤ Len ∧
    ((loopPrefixAligned addr s Len U).lenStart ≠ 0 →
      (addr + (loopPrefixAligned addr s Len U).lenStart * s) % 32 = 0) ∧
    (addr % 32 = 0 → (loopPrefixAligned addr s Len U).lenStart = 0) ∧
    (Len < (if addr % 32 ≠ 0 ∧ addr % 32 % s = 0 then (32 - addr % 32) / s else 0) →
      (loopPrefixAligned addr s Len U).lenStart = 0) := by
  obtain ⟨h1, h2⟩ := loopPrefixAligned_cover addr s Len U hs hU
  refine ⟨h1, h2, ?_⟩
  rcases hs with rfl | rfl | rfl | rfl <;> rcases hU with rfl | rfl <;>
    norm_num [loopPrefixAligned, and31_eq, and63_eq, and15_eq, and7_eq, and3_eq, and1_eq] <;>
    (try split_ifs) <;> dsimp only <;> norm_num <;> (try split_ifs) <;> omega

theorem c8_witness :
    (ElemSize 2 ∧ ((32 : Nat) = 32 ∨ (32 : Nat) = 64)) ∧
    ((loopPrefixAligned 6 2 100 32).lenStart + 32 / 2 * (loopPrefixAligned 6 2 100 32).body +
        (loopPrefixAligned 6 2 100 32).lenEnd = 100 ∧
      (loopPrefixAligned 6 2 100 32).lenStart ≤ 100 ∧
      ((loopPrefixAligned 6 2 100 32).lenStart ≠ 0 →
        (6 + (loopPrefixAligned 6 2 100 32).lenStart * 2) % 32 = 0) ∧
      ((6 : Nat) % 32 = 0 → (loopPrefixAligned 6 2 100 32).lenStart = 0) ∧
      (100 < (if (6 : Nat) % 32 ≠ 0 ∧ (6 : Nat) % 32 % 2 = 0 then (32 - 6 % 32) / 2 else 0) →
        (loopPrefixAligned 6 2 100 32).lenStart = 0)) :=
  ⟨⟨by decide, by norm_num⟩, c8_loop_partition 6 2 100 32 (by decide) (by norm_num)⟩

/-- C7 counterexample: with only CPU_SSE set (L2 field 0) the effective cache
size is the 64KB floor; a fill body of 300 blocks of 128 bytes (38400 bytes)
exceeds half of it (32768 bytes), yet the fill path does NOT use
non-temporal stores — its threshold is the full cache size, not half. -/
theorem c7_counterexample :
    effCacheSize CPU_SSE / 2 < 128 * (2400 >>> 3) ∧ fillUsesNT CPU_SSE 2400 = false := by
  decide

/-- C7 (amended): the effective L2 size is the L2 field times 32KB with a
64KB floor; the COPY body uses non-temporal stores iff the chunk count is
nonzero, both pointers are 16-byte aligned after the head, and the body (64
bytes per chunk) is at least HALF the effective cache size; the FILL body
uses them iff its 128-byte block count is nonzero and the body is at least
the FULL effective cache size; and the store kind never changes the bytes
written. -/
theorem c7_streaming_stores :
    (∀ cpu : Nat, effCacheSize cpu = max ((cpu >>> 32 &&& 1023) * 32768) 65536) ∧
    (∀ cpu len16 : Nat, fillUsesNT cpu len16 = true ↔
      0 < len16 >>> 3 ∧ effCacheSize cpu ≤ 128 * (len16 >>> 3)) ∧
    (∀ cpu srcA dstA chunks : Nat, copyUsesNT cpu srcA dstA chunks = true ↔
      0 < chunks ∧ srcA % 16 = 0 ∧ dstA % 16 = 0 ∧ effCacheSize cpu / 2 ≤ 64 * chunks) ∧
    (∀ (xmm : Nat → Int) (m : Mem Int) (p n : Nat),
      fillLoopNtps xmm m p n = fillLoopCached xmm m p n) ∧
    (∀ (m : Mem Int) (d s csz n : Nat),
      copyChunksNT m d s csz n = copyChunksAligned m d s csz n ∧
      copyChunksNT m d s csz n = copyChunksUnaligned m d s csz n) := by
  refine ⟨?_, ?_, ?_, ?_, ?_⟩
  · intro cpu
    simp only [effCacheSize]
    split_ifs <;> omega
  · intro cpu len16
    obtain ⟨t, ht⟩ := effCacheSize_dvd128 cpu
    unfold fillUsesNT
    simp only [Bool.and_eq_true, decide_eq_true_eq]
    omega
  · intro cpu srcA dstA chunks
    obtain ⟨t, ht⟩ := effCacheSize_dvd128 cpu
    unfold copyUsesNT
    simp only [Bool.and_eq_true, decide_eq_true_eq]
    omega
  · intro xmm m p n
    exact fillLoopNtps_eq_cached xmm n m p
  · intro m d s csz n
    exact ⟨(copyChunksAligned_eq_NT csz n m d s).symm,
      (copyChunksUnaligned_eq_NT csz n m d s).symm⟩

/-- C2: for every capability descriptor (flags present or absent), every
kernel element size, every buffer and every length — including all boundary
lengths — after `fill(caps, buf, b, e, v)` a scalar read of any index
`i ∈ [b, e)` yields exactly `v` (byte-for-byte: byte `j` of element `i` is
byte `j` of `v`). -/
theorem c2_fill_reads_value {α : Type} (cpu s : Nat) (vb : Nat → α) (m : Mem α)
    (base bIdx eIdx : Nat) (hs : ElemSize s) :
    ∀ i, bIdx ≤ i → i < eIdx → ∀ j, j < s →
      fillRun cpu s vb m base bIdx eIdx (base + i * s + j) = vb j := by
  intro i hbi hie j hj
  have hdvd : s ∣ 16 := by rcases hs with rfl | rfl | rfl | rfl <;> norm_num
  rw [fillRun_apply cpu s vb m base bIdx eIdx hdvd]
  have h1 : bIdx * s ≤ i * s := Nat.mul_le_mul_right s hbi
  have h2 : (i + 1) * s ≤ eIdx * s := Nat.mul_le_mul_right s hie
  have h3 : (i + 1) * s = i * s + s := by ring
  have h4 : (eIdx - bIdx) * s = eIdx * s - bIdx * s := by rw [Nat.sub_mul]
  rw [if_pos (by omega)]
  have hidx : base + i * s + j - (base + bIdx * s) = (i - bIdx) * s + j := by
    have h5 : (i - bIdx) * s = i * s - bIdx * s := by rw [Nat.sub_mul]
    omega
  rw [hidx, show (i - bIdx) * s + j = j + (i - bIdx) * s from by ring,
    Nat.add_mul_mod_self_right, Nat.mod_eq_of_lt hj]

theorem c2_witness :
    (ElemSize 2 ∧ 1 ≤ 20 ∧ 20 < 40 ∧ 1 < 2) ∧
      fillRun CPU_SSE 2 (fun j => (j : Int) + 7) (fun _ => (0 : Int)) 3 1 40
        (3 + 20 * 2 + 1) = (1 : Int) + 7 :=
  ⟨⟨by decide, by decide, by decide, by decide⟩,
    c2_fill_reads_value CPU_SSE 2 (fun j => (j : Int) + 7) (fun _ => (0 : Int)) 3 1 40
      (by decide) 20 (by decide) (by decide) 1 (by decide)⟩

/-- C3 counterexample: on the buffer [1,2,3] copying 2 bytes from offset 0 to
offset 1 under an SSE-capable descriptor yields 1 at index 2 (the tail
`rep movsb` reads the byte its own head write just clobbered), while move
semantics requires 2 — the claim fails for descriptors with CPU_SSE when the
destination starts inside the source range. -/
theorem c3_counterexample :
    copyBytes CPU_SSE mC 0 1 2 2 ≠ memmoveM mC 1 0 2 2 ∧
    copyBytes CPU_SSE mC 0 1 2 2 = 1 ∧ memmoveM mC 1 0 2 2 = 2 := by
  decide

/-- C3 (amended): copy matches the reference move semantics (all source bytes
read before any destination byte is written) under the scalar fallback for
arbitrary aliasing, and under every descriptor whenever the destination does
not start strictly inside the source range (`dst ≤ src` or disjoint with
`src + len ≤ dst`); for `src < dst < src + len` the SSE branch is a forward
copy, not a move. -/
theorem c3_copy_move_semantics {α : Type} (cpu : Nat) (m : Mem α) (src dst len : Nat) :
    (copyTakesSSE cpu = false → copyBytes cpu m src dst len = memmoveM m dst src len) ∧
    (dst ≤ src ∨ src + len ≤ dst → copyBytes cpu m src dst len = memmoveM m dst src len) := by
  constructor
  · intro hns
    simp [copyBytes, hns]
  · exact copyBytes_safe cpu m src dst len

theorem c3_witness :
    (copyTakesSSE 0 = false ∧ ((1 : Nat) ≤ 5 ∨ 5 + 3 ≤ 1)) ∧
    copyBytes 0 mC 5 1 3 = memmoveM mC 1 5 3 ∧
    copyBytes CPU_SSE mC 5 1 3 = memmoveM mC 1 5 3 :=
  ⟨⟨by decide, by decide⟩, (c3_copy_move_semantics 0 mC 5 1 3).1 (by decide),
    (c3_copy_move_semantics CPU_SSE mC 5 1 3).2 (by decide)⟩

theorem fillRun_inv {α : Type} (cpu s : Nat) (vb : Nat → α) (m : Mem α)
    (base bIdx eIdx : Nat) (hdvd : s ∣ 16) :
    fillRun cpu s vb m base bIdx eIdx = fillRun 0 s vb m base bIdx eIdx := by
  funext i
  rw [fillRun_apply cpu s vb m base bIdx eIdx hdvd i,
    fillRun_apply 0 s vb m base bIdx eIdx hdvd i]

theorem minmaxIntRun_inv {ε : Type} (gt : ε → ε → Bool) (t : Bool) (cpu : Nat)
    (A B : Mem ε) (baseA s aofs bofs Len : Nat) (hs : ElemSize s) :
    minmaxIntRun gt t cpu A B baseA s aofs bofs Len =
      minmaxIntRun gt t 0 A B baseA s aofs bofs Len := by
  funext i
  rw [minmaxIntRun_apply gt t cpu A B baseA s aofs bofs Len hs i,
    minmaxIntRun_apply gt t 0 A B baseA s aofs bofs Len hs i]

theorem pminubRun_inv (gt : Int → Int → Bool) (cpu : Nat) (A B : Mem Int)
    (baseA aofs bofs Len : Nat) :
    pminubRun gt cpu A B baseA aofs bofs Len = pminubRun gt 0 A B baseA aofs bofs Len := by
  funext i
  rw [pminubRun_apply gt cpu A B baseA aofs bofs Len i,
    pminubRun_apply gt 0 A B baseA aofs bofs Len i]

theorem minmaxFloatRun_inv (gt : Option Int → Option Int → Bool)
    (body : Option Int → Option Int → Option Int) (cpu : Nat)
    (A B : Mem (Option Int)) (baseA aofs bofs Len : Nat)
    (hlocal : ∀ a b : Option Int, a ≠ none → b ≠ none → body a b = cmpStep gt a b)
    (hnan : ∀ k, k < Len → A (aofs + k) ≠ none ∧ B (bofs + k) ≠ none) :
    minmaxFloatRun gt body cpu A B baseA aofs bofs Len =
      minmaxFloatRun gt body 0 A B baseA aofs bofs Len := by
  have hbody : ∀ k, k < Len →
      body (A (aofs + k)) (B (bofs + k)) = cmpStep gt (A (aofs + k)) (B (bofs + k)) :=
    fun k hk => hlocal _ _ (hnan k hk).1 (hnan k hk).2
  funext i
  rw [minmaxFloatRun_apply gt body cpu A B baseA aofs bofs Len hbody i,
    minmaxFloatRun_apply gt body 0 A B baseA aofs bofs Len hbody i]

theorem minmaxDoubleRun_inv (gt : Option Int → Option Int → Bool)
    (body : Option Int → Option Int → Option Int) (cpu : Nat)
    (A B : Mem (Option Int)) (baseA aofs bofs Len : Nat)
    (hlocal : ∀ a b : Option Int, a ≠ none → b ≠ none → body a b = cmpStep gt a b)
    (hnan : ∀ k, k < Len → A (aofs + k) ≠ none ∧ B (bofs + k) ≠ none) :
    minmaxDoubleRun gt body cpu A B baseA aofs bofs Len =
      minmaxDoubleRun gt body 0 A B baseA aofs bofs Len := by
  have hbody : ∀ k, k < Len →
      body (A (aofs + k)) (B (bofs + k)) = cmpStep gt (A (aofs + k)) (B (bofs + k)) :=
    fun k hk => hlocal _ _ (hnan k hk).1 (hnan k hk).2
  funext i
  rw [minmaxDoubleRun_apply gt body cpu A B baseA aofs bofs Len hbody i,
    minmaxDoubleRun_apply gt body 0 A B baseA aofs bofs Len hbody i]

/-- C1 counterexample: the same copy (2 bytes, offset 0 to offset 1, inside
one buffer [1,2,3]) yields different final contents under an SSE descriptor
(forward copy) and under descriptor 0 (memmove): the descriptor does change
the observable result for overlapping copies. -/
theorem c1_counterexample : copyBytes CPU_SSE mC 0 1 2 2 ≠ copyBytes 0 mC 0 1 2 2 := by
  decide

/-- C1 (amended): for every capability descriptor the final contents equal
those under descriptor 0 for: fill (every element size), copy whenever the
destination does not start strictly inside the source range, min/max/minu/
maxu on all integer element types (distinct buffers), and min/max on
float/double whenever the processed ranges hold no NaN.  (Excluded by the
counterexamples: copy with `src < dst < src+len`, and float/double min/max on
NaN inputs, where the vectorized and scalar branches genuinely differ.) -/
theorem c1_descriptor_invariance :
    (∀ {α : Type} (cpu s : Nat) (vb : Nat → α) (m : Mem α) (base bIdx eIdx : Nat),
      ElemSize s → fillRun cpu s vb m base bIdx eIdx = fillRun 0 s vb m base bIdx eIdx) ∧
    (∀ {α : Type} (cpu : Nat) (m : Mem α) (src dst len : Nat),
      dst ≤ src ∨ src + len ≤ dst →
      copyBytes cpu m src dst len = copyBytes 0 m src dst len) ∧
    (∀ (cpu : Nat) (A B : Mem Int) (baseA aofs bofs Len : Nat),
      minByte cpu A B baseA aofs bofs Len = minByte 0 A B baseA aofs bofs Len ∧
      maxByte cpu A B baseA aofs bofs Len = maxByte 0 A B baseA aofs bofs Len ∧
      minShort cpu A B baseA aofs bofs Len = minShort 0 A B baseA aofs bofs Len ∧
      maxShort cpu A B baseA aofs bofs Len = maxShort 0 A B baseA aofs bofs Len ∧
      minuShort cpu A B baseA aofs bofs Len = minuShort 0 A B baseA aofs bofs Len ∧
      maxuShort cpu A B baseA aofs bofs Len = maxuShort 0 A B baseA aofs bofs Len ∧
      minInt cpu A B baseA aofs bofs Len = minInt 0 A B baseA aofs bofs Len ∧
      maxInt cpu A B baseA aofs bofs Len = maxInt 0 A B baseA aofs bofs Len ∧
      minuByte cpu A B baseA aofs bofs Len = minuByte 0 A B baseA aofs bofs Len ∧
      maxuByte cpu A B baseA aofs bofs Len = maxuByte 0 A B baseA aofs bofs Len) ∧
    (∀ (cpu : Nat) (A B : Mem Int) (aofs bofs Len : Nat),
      minLong cpu A B aofs bofs Len = minLong 0 A B aofs bofs Len ∧
      maxLong cpu A B aofs bofs Len = maxLong 0 A B aofs bofs Len) ∧
    (∀ (cpu : Nat) (A B : Mem (Option Int)) (baseA aofs bofs Len : Nat),
      (∀ k, k < Len → A (aofs + k) ≠ none ∧ B (bofs + k) ≠ none) →
      minFloat cpu A B baseA aofs bofs Len = minFloat 0 A B baseA aofs bofs Len ∧
      maxFloat cpu A B baseA aofs bofs Len = maxFloat 0 A B baseA aofs bofs Len ∧
      minDouble cpu A B baseA aofs bofs Len = minDouble 0 A B baseA aofs bofs Len ∧
      maxDouble cpu A B baseA aofs bofs Len = maxDouble 0 A B baseA aofs bofs Len) := by
  refine ⟨?_, ?_, ?_, ?_, ?_⟩
  · intro α cpu s vb m base bIdx eIdx hs
    exact fillRun_inv cpu s vb m base bIdx eIdx
      (by rcases hs with rfl | rfl | rfl | rfl <;> norm_num)
  · intro α cpu m src dst len hsafe
    exact (copyBytes_safe cpu m src dst len hsafe).trans
      (copyBytes_safe 0 m src dst len hsafe).symm
  · intro cpu A B baseA aofs bofs Len
    refine ⟨?_, ?_, ?_, ?_, ?_, ?_, ?_, ?_, ?_, ?_⟩ <;>
      simp only [minByte, maxByte, minShort, maxShort, minuShort, maxuShort, minInt,
        maxInt, minuByte, maxuByte] <;>
      first
        | rw [minmaxIntRun_inv _ _ cpu A B baseA 1 aofs bofs Len (by decide)]
        | rw [minmaxIntRun_inv _ _ cpu A B baseA 2 aofs bofs Len (by decide)]
        | rw [minmaxIntRun_inv _ _ cpu A B baseA 4 aofs bofs Len (by decide)]
        | rw [pminubRun_inv _ cpu A B baseA aofs bofs Len]
  · intro cpu A B aofs bofs Len
    exact ⟨rfl, rfl⟩
  · intro cpu A B baseA aofs bofs Len hnan
    refine ⟨?_, ?_, ?_, ?_⟩
    · simp only [minFloat]
      rw [minmaxFloatRun_inv fgt minpsOp cpu A B baseA aofs bofs Len minpsOp_eq_cmpStep hnan]
    · simp only [maxFloat]
      rw [minmaxFloatRun_inv flt maxpsOp cpu A B baseA aofs bofs Len maxpsOp_eq_cmpStep hnan]
    · simp only [minDouble]
      rw [minmaxDoubleRun_inv fgt fcmovMinOp cpu A B baseA aofs bofs Len
        fcmovMinOp_eq_cmpStep hnan]
    · simp only [maxDouble]
      rw [minmaxDoubleRun_inv flt fcmovMaxOp cpu A B baseA aofs bofs Len
        fcmovMaxOp_eq_cmpStep hnan]

theorem c1_witness :
    (ElemSize 1 ∧ ((2 : Nat) ≤ 5 ∨ 5 + 3 ≤ 2) ∧
      (∀ k, k < 1 → cexFive (0 + k) ≠ none ∧ cexFive (0 + k) ≠ none)) ∧
    fillRun CPU_SSE 1 (fun _ => (9 : Int)) mC 0 0 50 =
      fillRun 0 1 (fun _ => (9 : Int)) mC 0 0 50 ∧
    copyBytes CPU_SSE mC 5 2 3 = copyBytes 0 mC 5 2 3 ∧
    minByte CPU_MMX mC mC 0 0 0 4 = minByte 0 mC mC 0 0 0 4 ∧
    minLong 7 mC mC 0 0 4 = minLong 0 mC mC 0 0 4 ∧
    minFloat CPU_SSE cexFive cexFive 0 0 0 1 = minFloat 0 cexFive cexFive 0 0 0 1 :=
  ⟨⟨by decide, by decide, by decide⟩,
    c1_descriptor_invariance.1 CPU_SSE 1 (fun _ => (9 : Int)) mC 0 0 50 (by decide),
    c1_descriptor_invariance.2.1 CPU_SSE mC 5 2 3 (by decide),
    (c1_descriptor_invariance.2.2.1 CPU_MMX mC mC 0 0 0 4).1,
    (c1_descriptor_invariance.2.2.2.1 7 mC mC 0 0 4).1,
    (c1_descriptor_invariance.2.2.2.2 CPU_SSE cexFive cexFive 0 0 0 1 (by decide)).1⟩

/-- C4: for each of min, max, minu, maxu over each supported element type,
for every capability descriptor, all offsets and every length: inside
`[Aofs, Aofs+Len)` the destination receives the element-wise minimum (resp.
maximum) of the old `A` and `B` under the operation's signedness (for
float/double: wherever both operands are numeric — a minimum of a NaN is not
defined); outside that range `A` is unchanged; and `B` is returned unchanged
(released with JNI_ABORT, and no kernel writes through `pb`). -/
theorem c4_minmax_pointwise :
    (∀ (cpu : Nat) (A B : Mem Int) (baseA aofs bofs Len : Nat),
      (∀ i, aofs ≤ i → i < aofs + Len →
        (minByte cpu A B baseA aofs bofs Len).1 i = min (A i) (B (bofs + (i - aofs)))) ∧
      (∀ i, ¬(aofs ≤ i ∧ i < aofs + Len) → (minByte cpu A B baseA aofs bofs Len).1 i = A i) ∧
      (minByte cpu A B baseA aofs bofs Len).2 = B) ∧
    (∀ (cpu : Nat) (A B : Mem Int) (baseA aofs bofs Len : Nat),
      (∀ i, aofs ≤ i → i < aofs + Len →
        (maxByte cpu A B baseA aofs bofs Len).1 i = max (A i) (B (bofs + (i - aofs)))) ∧
      (∀ i, ¬(aofs ≤ i ∧ i < aofs + Len) → (maxByte cpu A B baseA aofs bofs Len).1 i = A i) ∧
      (maxByte cpu A B baseA aofs bofs Len).2 = B) ∧
    (∀ (cpu : Nat) (A B : Mem Int) (baseA aofs bofs Len : Nat),
      (∀ i, aofs ≤ i → i < aofs + Len →
        (minShort cpu A B baseA aofs bofs Len).1 i = min (A i) (B (bofs + (i - aofs)))) ∧
      (∀ i, ¬(aofs ≤ i ∧ i < aofs + Len) → (minShort cpu A B baseA aofs bofs Len).1 i = A i) ∧
      (minShort cpu A B baseA aofs bofs Len).2 = B) ∧
    (∀ (cpu : Nat) (A B : Mem Int) (baseA aofs bofs Len : Nat),
      (∀ i, aofs ≤ i → i < aofs + Len →
        (maxShort cpu A B baseA aofs bofs Len).1 i = max (A i) (B (bofs + (i - aofs)))) ∧
      (∀ i, ¬(aofs ≤ i ∧ i < aofs + Len) → (maxShort cpu A B baseA aofs bofs Len).1 i = A i) ∧
      (maxShort cpu A B baseA aofs bofs Len).2 = B) ∧
    (∀ (cpu : Nat) (A B : Mem Int) (baseA aofs bofs Len : Nat),
      (∀ i, aofs ≤ i → i < aofs + Len →
        (minuShort cpu A B baseA aofs bofs Len).1 i = min (A i) (B (bofs + (i - aofs)))) ∧
      (∀ i, ¬(aofs ≤ i ∧ i < aofs + Len) → (minuShort cpu A B baseA aofs bofs Len).1 i = A i) ∧
      (minuShort cpu A B baseA aofs bofs Len).2 = B) ∧
    (∀ (cpu : Nat) (A B : Mem Int) (baseA aofs bofs Len : Nat),
      (∀ i, aofs ≤ i → i < aofs + Len →
        (maxuShort cpu A B baseA aofs bofs Len).1 i = max (A i) (B (bofs + (i - aofs)))) ∧
      (∀ i, ¬(aofs ≤ i ∧ i < aofs + Len) → (maxuShort cpu A B baseA aofs bofs Len).1 i = A i) ∧
      (maxuShort cpu A B baseA aofs bofs Len).2 = B) ∧
    (∀ (cpu : Nat) (A B : Mem Int) (baseA aofs bofs Len : Nat),
      (∀ i, aofs ≤ i → i < aofs + Len →
        (minInt cpu A B baseA aofs bofs Len).1 i = min (A i) (B (bofs + (i - aofs)))) ∧
      (∀ i, ¬(aofs ≤ i ∧ i < aofs + Len) → (minInt cpu A B baseA aofs bofs Len).1 i = A i) ∧
      (minInt cpu A B baseA aofs bofs Len).2 = B) ∧
    (∀ (cpu : Nat) (A B : Mem Int) (baseA aofs bofs Len : Nat),
      (∀ i, aofs ≤ i → i < aofs + Len →
        (maxInt cpu A B baseA aofs bofs Len).1 i = max (A i) (B (bofs + (i - aofs)))) ∧
      (∀ i, ¬(aofs ≤ i ∧ i < aofs + Len) → (maxInt cpu A B baseA aofs bofs Len).1 i = A i) ∧
      (maxInt cpu A B baseA aofs bofs Len).2 = B) ∧
    (∀ (cpu : Nat) (A B : Mem Int) (aofs bofs Len : Nat),
      (∀ i, aofs ≤ i → i < aofs + Len →
        (minLong cpu A B aofs bofs Len).1 i = min (A i) (B (bofs + (i - aofs)))) ∧
      (∀ i, ¬(aofs ≤ i ∧ i < aofs + Len) → (minLong cpu A B aofs bofs Len).1 i = A i) ∧
      (minLong cpu A B aofs bofs Len).2 = B) ∧
    (∀ (cpu : Nat) (A B : Mem Int) (aofs bofs Len : Nat),
      (∀ i, aofs ≤ i → i < aofs + Len →
        (maxLong cpu A B aofs bofs Len).1 i = max (A i) (B (bofs + (i - aofs)))) ∧
      (∀ i, ¬(aofs ≤ i ∧ i < aofs + Len) → (maxLong cpu A B aofs bofs Len).1 i = A i) ∧
      (maxLong cpu A B aofs bofs Len).2 = B) ∧
    (∀ (cpu : Nat) (A B : Mem Int) (baseA aofs bofs Len : Nat),
      (∀ i, aofs ≤ i → i < aofs + Len →
        (minuByte cpu A B baseA aofs bofs Len).1 i = min (A i) (B (bofs + (i - aofs)))) ∧
      (∀ i, ¬(aofs ≤ i ∧ i < aofs + Len) → (minuByte cpu A B baseA aofs bofs Len).1 i = A i) ∧
      (minuByte cpu A B baseA aofs bofs Len).2 = B) ∧
    (∀ (cpu : Nat) (A B : Mem Int) (baseA aofs bofs Len : Nat),
      (∀ i, aofs ≤ i → i < aofs + Len →
        (maxuByte cpu A B baseA aofs bofs Len).1 i = max (A i) (B (bofs + (i - aofs)))) ∧
      (∀ i, ¬(aofs ≤ i ∧ i < aofs + Len) → (maxuByte cpu A B baseA aofs bofs Len).1 i = A i) ∧
      (maxuByte cpu A B baseA aofs bofs Len).2 = B) ∧
    (∀ (cpu : Nat) (A B : Mem (Option Int)) (baseA aofs bofs Len : Nat),
      (∀ i x y, aofs ≤ i → i < aofs + Len → A i = some x → B (bofs + (i - aofs)) = some y →
        (minFloat cpu A B baseA aofs bofs Len).1 i = some (min x y)) ∧
      (∀ i, ¬(aofs ≤ i ∧ i < aofs + Len) → (minFloat cpu A B baseA aofs bofs Len).1 i = A i) ∧
      (minFloat cpu A B baseA aofs bofs Len).2 = B) ∧
    (∀ (cpu : Nat) (A B : Mem (Option Int)) (baseA aofs bofs Len : Nat),
      (∀ i x y, aofs ≤ i → i < aofs + Len → A i = some x → B (bofs + (i - aofs)) = some y →
        (maxFloat cpu A B baseA aofs bofs Len).1 i = some (max x y)) ∧
      (∀ i, ¬(aofs ≤ i ∧ i < aofs + Len) → (maxFloat cpu A B baseA aofs bofs Len).1 i = A i) ∧
      (maxFloat cpu A B baseA aofs bofs Len).2 = B) ∧
    (∀ (cpu : Nat) (A B : Mem (Option Int)) (baseA aofs bofs Len : Nat),
      (∀ i x y, aofs ≤ i → i < aofs + Len → A i = some x → B (bofs + (i - aofs)) = some y →
        (minDouble cpu A B baseA aofs bofs Len).1 i = some (min x y)) ∧
      (∀ i, ¬(aofs ≤ i ∧ i < aofs + Len) → (minDouble cpu A B baseA aofs bofs Len).1 i = A i) ∧
      (minDouble cpu A B baseA aofs bofs Len).2 = B) ∧
    (∀ (cpu : Nat) (A B : Mem (Option Int)) (baseA aofs bofs Len : Nat),
      (∀ i x y, aofs ≤ i → i < aofs + Len → A i = some x → B (bofs + (i - aofs)) = some y →
        (maxDouble cpu A B baseA aofs bofs Len).1 i = some (max x y)) ∧
      (∀ i, ¬(aofs ≤ i ∧ i < aofs + Len) → (maxDouble cpu A B baseA aofs bofs Len).1 i = A i) ∧
      (maxDouble cpu A B baseA aofs bofs Len).2 = B) := by
  refine ⟨?_, ?_, ?_, ?_, ?_, ?_, ?_, ?_, ?_, ?_, ?_, ?_, ?_, ?_, ?_, ?_⟩ <;>
    intro cpu A B
  · intro baseA aofs bofs Len
    refine ⟨fun i h1 h2 => ?_, fun i hout => ?_, rfl⟩ <;> simp only [minByte]
    · rw [minmaxIntRun_apply gtInt true cpu A B baseA 1 aofs bofs Len (by decide) i,
        if_pos ⟨h1, h2⟩, cmpStep_gtInt]
    · rw [minmaxIntRun_apply gtInt true cpu A B baseA 1 aofs bofs Len (by decide) i,
        if_neg hout]
  · intro baseA aofs bofs Len
    refine ⟨fun i h1 h2 => ?_, fun i hout => ?_, rfl⟩ <;> simp only [maxByte]
    · rw [minmaxIntRun_apply ltInt true cpu A B baseA 1 aofs bofs Len (by decide) i,
        if_pos ⟨h1, h2⟩, cmpStep_ltInt]
    · rw [minmaxIntRun_apply ltInt true cpu A B baseA 1 aofs bofs Len (by decide) i,
        if_neg hout]
  · intro baseA aofs bofs Len
    refine ⟨fun i h1 h2 => ?_, fun i hout => ?_, rfl⟩ <;> simp only [minShort]
    · rw [minmaxIntRun_apply gtInt true cpu A B baseA 2 aofs bofs Len (by decide) i,
        if_pos ⟨h1, h2⟩, cmpStep_gtInt]
    · rw [minmaxIntRun_apply gtInt true cpu A B baseA 2 aofs bofs Len (by decide) i,
        if_neg hout]
  · intro baseA aofs bofs Len
    refine ⟨fun i h1 h2 => ?_, fun i hout => ?_, rfl⟩ <;> simp only [maxShort]
    · rw [minmaxIntRun_apply ltInt true cpu A B baseA 2 aofs bofs Len (by decide) i,
        if_pos ⟨h1, h2⟩, cmpStep_ltInt]
    · rw [minmaxIntRun_apply ltInt true cpu A B baseA 2 aofs bofs Len (by decide) i,
        if_neg hout]
  · intro baseA aofs bofs Len
    refine ⟨fun i h1 h2 => ?_, fun i hout => ?_, rfl⟩ <;> simp only [minuShort]
    · rw [minmaxIntRun_apply gtInt true cpu A B baseA 2 aofs bofs Len (by decide) i,
        if_pos ⟨h1, h2⟩, cmpStep_gtInt]
    · rw [minmaxIntRun_apply gtInt true cpu A B baseA 2 aofs bofs Len (by decide) i,
        if_neg hout]
  · intro baseA aofs bofs Len
    refine ⟨fun i h1 h2 => ?_, fun i hout => ?_, rfl⟩ <;> simp only [maxuShort]
    · rw [minmaxIntRun_apply ltInt true cpu A B baseA 2 aofs bofs Len (by decide) i,
        if_pos ⟨h1, h2⟩, cmpStep_ltInt]
    · rw [minmaxIntRun_apply ltInt true cpu A B baseA 2 aofs bofs Len (by decide) i,
        if_neg hout]
  · intro baseA aofs bofs Len
    refine ⟨fun i h1 h2 => ?_, fun i hout => ?_, rfl⟩ <;> simp only [minInt]
    · rw [minmaxIntRun_apply gtInt false cpu A B baseA 4 aofs bofs Len (by decide) i,
        if_pos ⟨h1, h2⟩, cmpStep_gtInt]
    · rw [minmaxIntRun_apply gtInt false cpu A B baseA 4 aofs bofs Len (by decide) i,
        if_neg hout]
  · intro baseA aofs bofs Len
    refine ⟨fun i h1 h2 => ?_, fun i hout => ?_, rfl⟩ <;> simp only [maxInt]
    · rw [minmaxIntRun_apply ltInt false cpu A B baseA 4 aofs bofs Len (by decide) i,
        if_pos ⟨h1, h2⟩, cmpStep_ltInt]
    · rw [minmaxIntRun_apply ltInt false cpu A B baseA 4 aofs bofs Len (by decide) i,
        if_neg hout]
  · intro aofs bofs Len
    refine ⟨fun i h1 h2 => ?_, fun i hout => ?_, rfl⟩ <;>
      simp only [minLong, minmaxLongRun]
    · rw [minmaxBodyLoop_apply, if_pos ⟨h1, h2⟩, cmpStep_gtInt]
    · rw [minmaxBodyLoop_apply, if_neg hout]
  · intro aofs bofs Len
    refine ⟨fun i h1 h2 => ?_, fun i hout => ?_, rfl⟩ <;>
      simp only [maxLong, minmaxLongRun]
    · rw [minmaxBodyLoop_apply, if_pos ⟨h1, h2⟩, cmpStep_ltInt]
    · rw [minmaxBodyLoop_apply, if_neg hout]
  · intro baseA aofs bofs Len
    refine ⟨fun i h1 h2 => ?_, fun i hout => ?_, rfl⟩ <;> simp only [minuByte]
    · rw [pminubRun_apply gtInt cpu A B baseA aofs bofs Len i, if_pos ⟨h1, h2⟩, cmpStep_gtInt]
    · rw [pminubRun_apply gtInt cpu A B baseA aofs bofs Len i, if_neg hout]
  · intro baseA aofs bofs Len
    refine ⟨fun i h1 h2 => ?_, fun i hout => ?_, rfl⟩ <;> simp only [maxuByte]
    · rw [pminubRun_apply ltInt cpu A B baseA aofs bofs Len i, if_pos ⟨h1, h2⟩, cmpStep_ltInt]
    · rw [pminubRun_apply ltInt cpu A B baseA aofs bofs Len i, if_neg hout]
  · intro baseA aofs bofs Len
    refine ⟨fun i x y h1 h2 hx hy => ?_, fun i hout => ?_, rfl⟩ <;> simp only [minFloat]
    · rw [minmaxFloatRun_local fgt minpsOp cpu A B baseA aofs bofs Len i minpsOp_eq_cmpStep
        ⟨h1, h2⟩ (by rw [hx]; exact Option.some_ne_none x)
        (by rw [hy]; exact Option.some_ne_none y), hx, hy, cmpStep_fgt]
    · exact minmaxFloatRun_frame fgt minpsOp cpu A B baseA aofs bofs Len i hout
  · intro baseA aofs bofs Len
    refine ⟨fun i x y h1 h2 hx hy => ?_, fun i hout => ?_, rfl⟩ <;> simp only [maxFloat]
    · rw [minmaxFloatRun_local flt maxpsOp cpu A B baseA aofs bofs Len i maxpsOp_eq_cmpStep
        ⟨h1, h2⟩ (by rw [hx]; exact Option.some_ne_none x)
        (by rw [hy]; exact Option.some_ne_none y), hx, hy, cmpStep_flt]
    · exact minmaxFloatRun_frame flt maxpsOp cpu A B baseA aofs bofs Len i hout
  · intro baseA aofs bofs Len
    refine ⟨fun i x y h1 h2 hx hy => ?_, fun i hout => ?_, rfl⟩ <;> simp only [minDouble]
    · rw [minmaxDoubleRun_local fgt fcmovMinOp cpu A B baseA aofs bofs Len i
        fcmovMinOp_eq_cmpStep ⟨h1, h2⟩ (by rw [hx]; exact Option.some_ne_none x)
        (by rw [hy]; exact Option.some_ne_none y), hx, hy, cmpStep_fgt]
    · exact minmaxDoubleRun_frame fgt fcmovMinOp cpu A B baseA aofs bofs Len i hout
  · intro baseA aofs bofs Len
    refine ⟨fun i x y h1 h2 hx hy => ?_, fun i hout => ?_, rfl⟩ <;> simp only [maxDouble]
    · rw [minmaxDoubleRun_local flt fcmovMaxOp cpu A B baseA aofs bofs Len i
        fcmovMaxOp_eq_cmpStep ⟨h1, h2⟩ (by rw [hx]; exact Option.some_ne_none x)
        (by rw [hy]; exact Option.some_ne_none y), hx, hy, cmpStep_flt]
    · exact minmaxDoubleRun_frame flt fcmovMaxOp cpu A B baseA aofs bofs Len i hout

theorem c4_witness :
    ((0 : Nat) ≤ 2 ∧ 2 < 0 + 4 ∧ ¬((0 : Nat) ≤ 7 ∧ 7 < 0 + 4) ∧ cexFive 2 = some 5) ∧
    (minByte CPU_MMXEX mC mC 0 0 0 4).1 2 = min (mC 2) (mC (0 + (2 - 0))) ∧
    (minByte CPU_MMXEX mC mC 0 0 0 4).1 7 = mC 7 ∧
    (minByte CPU_MMXEX mC mC 0 0 0 4).2 = mC ∧
    (minFloat 0 cexFive cexFive 0 0 0 4).1 2 = some (min 5 5) :=
  ⟨⟨by decide, by decide, by decide, rfl⟩,
    ((c4_minmax_pointwise.1 CPU_MMXEX mC mC 0 0 0 4).1 2 (by decide) (by decide)),
    ((c4_minmax_pointwise.1 CPU_MMXEX mC mC 0 0 0 4).2.1 7 (by decide)),
    (c4_minmax_pointwise.1 CPU_MMXEX mC mC 0 0 0 4).2.2,
    ((c4_minmax_pointwise.2.2.2.2.2.2.2.2.2.2.2.2.1 0 cexFive cexFive 0 0 0 4).1 2 5 5
      (by decide) (by decide) rfl rfl)⟩

/-- C9, counterexample to commutativity as claimed for "integer and
floating-point alike": the scalar float kernel is `if (*pa > *pb) *pa = *pb`,
and an x87/SSE comparison against NaN is unordered (never "greater"), so with
`a[0] = NaN, b[0] = 5` min(a,b) keeps NaN while min(b,a) keeps 5. -/
theorem c9_counterexample :
    (minFloat 0 cexNaN cexFive 0 0 0 1).1 0 ≠ (minFloat 0 cexFive cexNaN 0 0 0 1).1 0 := by
  decide

/-- C9 (amended): per-element commutativity holds unconditionally for every
integer element type (byte, short, unsigned short, int, long, unsigned byte),
and for float and double wherever both operands are numeric (not NaN); and
applying min (resp. max) a second time with the same second operand leaves
the destination unchanged, for every element type unconditionally. -/
theorem c9_minmax_algebra :
    (∀ (cpu : Nat) (A B : Mem Int) (baseA baseB aofs bofs Len k : Nat), k < Len →
      (minByte cpu A B baseA aofs bofs Len).1 (aofs + k) =
        (minByte cpu B A baseB bofs aofs Len).1 (bofs + k)) ∧
    (∀ (cpu : Nat) (A B : Mem Int) (baseA baseB aofs bofs Len k : Nat), k < Len →
      (maxByte cpu A B baseA aofs bofs Len).1 (aofs + k) =
        (maxByte cpu B A baseB bofs aofs Len).1 (bofs + k)) ∧
    (∀ (cpu : Nat) (A B : Mem Int) (baseA baseB aofs bofs Len k : Nat), k < Len →
      (minShort cpu A B baseA aofs bofs Len).1 (aofs + k) =
        (minShort cpu B A baseB bofs aofs Len).1 (bofs + k)) ∧
    (∀ (cpu : Nat) (A B : Mem Int) (baseA baseB aofs bofs Len k : Nat), k < Len →
      (maxShort cpu A B baseA aofs bofs Len).1 (aofs + k) =
        (maxShort cpu B A baseB bofs aofs Len).1 (bofs + k)) ∧
    (∀ (cpu : Nat) (A B : Mem Int) (baseA baseB aofs bofs Len k : Nat), k < Len →
      (minuShort cpu A B baseA aofs bofs Len).1 (aofs + k) =
        (minuShort cpu B A baseB bofs aofs Len).1 (bofs + k)) ∧
    (∀ (cpu : Nat) (A B : Mem Int) (baseA baseB aofs bofs Len k : Nat), k < Len →
      (maxuShort cpu A B baseA aofs bofs Len).1 (aofs + k) =
        (maxuShort cpu B A baseB bofs aofs Len).1 (bofs + k)) ∧
    (∀ (cpu : Nat) (A B : Mem Int) (baseA baseB aofs bofs Len k : Nat), k < Len →
      (minInt cpu A B baseA aofs bofs Len).1 (aofs + k) =
        (minInt cpu B A baseB bofs aofs Len).1 (bofs + k)) ∧
    (∀ (cpu : Nat) (A B : Mem Int) (baseA baseB aofs bofs Len k : Nat), k < Len →
      (maxInt cpu A B baseA aofs bofs Len).1 (aofs + k) =
        (maxInt cpu B A baseB bofs aofs Len).1 (bofs + k)) ∧
    (∀ (cpu : Nat) (A B : Mem Int) (aofs bofs Len k : Nat), k < Len →
      (minLong cpu A B aofs bofs Len).1 (aofs + k) =
        (minLong cpu B A bofs aofs Len).1 (bofs + k)) ∧
    (∀ (cpu : Nat) (A B : Mem Int) (aofs bofs Len k : Nat), k < Len →
      (maxLong cpu A B aofs bofs Len).1 (aofs + k) =
        (maxLong cpu B A bofs aofs Len).1 (bofs + k)) ∧
    (∀ (cpu : Nat) (A B : Mem Int) (baseA baseB aofs bofs Len k : Nat), k < Len →
      (minuByte cpu A B baseA aofs bofs Len).1 (aofs + k) =
        (minuByte cpu B A baseB bofs aofs Len).1 (bofs + k)) ∧
    (∀ (cpu : Nat) (A B : Mem Int) (baseA baseB aofs bofs Len k : Nat), k < Len →
      (maxuByte cpu A B baseA aofs bofs Len).1 (aofs + k) =
        (maxuByte cpu B A baseB bofs aofs Len).1 (bofs + k)) ∧
    (∀ (cpu : Nat) (A B : Mem (Option Int)) (baseA baseB aofs bofs Len k : Nat), k < Len →
      A (aofs + k) ≠ none → B (bofs + k) ≠ none →
      (minFloat cpu A B baseA aofs bofs Len).1 (aofs + k) =
        (minFloat cpu B A baseB bofs aofs Len).1 (bofs + k)) ∧
    (∀ (cpu : Nat) (A B : Mem (Option Int)) (baseA baseB aofs bofs Len k : Nat), k < Len →
      A (aofs + k) ≠ none → B (bofs + k) ≠ none →
      (maxFloat cpu A B baseA aofs bofs Len).1 (aofs + k) =
        (maxFloat cpu B A baseB bofs aofs Len).1 (bofs + k)) ∧
    (∀ (cpu : Nat) (A B : Mem (Option Int)) (baseA baseB aofs bofs Len k : Nat), k < Len →
      A (aofs + k) ≠ none → B (bofs + k) ≠ none →
      (minDouble cpu A B baseA aofs bofs Len).1 (aofs + k) =
        (minDouble cpu B A baseB bofs aofs Len).1 (bofs + k)) ∧
    (∀ (cpu : Nat) (A B : Mem (Option Int)) (baseA baseB aofs bofs Len k : Nat), k < Len →
      A (aofs + k) ≠ none → B (bofs + k) ≠ none →
      (maxDouble cpu A B baseA aofs bofs Len).1 (aofs + k) =
        (maxDouble cpu B A baseB bofs aofs Len).1 (bofs + k)) ∧
    (∀ (cpu : Nat) (A B : Mem Int) (baseA aofs bofs Len : Nat),
      (minByte cpu (minByte cpu A B baseA aofs bofs Len).1 B baseA aofs bofs Len).1 =
        (minByte cpu A B baseA aofs bofs Len).1) ∧
    (∀ (cpu : Nat) (A B : Mem Int) (baseA aofs bofs Len : Nat),
      (maxByte cpu (maxByte cpu A B baseA aofs bofs Len).1 B baseA aofs bofs Len).1 =
        (maxByte cpu A B baseA aofs bofs Len).1) ∧
    (∀ (cpu : Nat) (A B : Mem Int) (baseA aofs bofs Len : Nat),
      (minShort cpu (minShort cpu A B baseA aofs bofs Len).1 B baseA aofs bofs Len).1 =
        (minShort cpu A B baseA aofs bofs Len).1) ∧
    (∀ (cpu : Nat) (A B : Mem Int) (baseA aofs bofs Len : Nat),
      (maxShort cpu (maxShort cpu A B baseA aofs bofs Len).1 B baseA aofs bofs Len).1 =
        (maxShort cpu A B baseA aofs bofs Len).1) ∧
    (∀ (cpu : Nat) (A B : Mem Int) (baseA aofs bofs Len : Nat),
      (minuShort cpu (minuShort cpu A B baseA aofs bofs Len).1 B baseA aofs bofs Len).1 =
        (minuShort cpu A B baseA aofs bofs Len).1) ∧
    (∀ (cpu : Nat) (A B : Mem Int) (baseA aofs bofs Len : Nat),
      (maxuShort cpu (maxuShort cpu A B baseA aofs bofs Len).1 B baseA aofs bofs Len).1 =
        (maxuShort cpu A B baseA aofs bofs Len).1) ∧
    (∀ (cpu : Nat) (A B : Mem Int) (baseA aofs bofs Len : Nat),
      (minInt cpu (minInt cpu A B baseA aofs bofs Len).1 B baseA aofs bofs Len).1 =
        (minInt cpu A B baseA aofs bofs Len).1) ∧
    (∀ (cpu : Nat) (A B : Mem Int) (baseA aofs bofs Len : Nat),
      (maxInt cpu (maxInt cpu A B baseA aofs bofs Len).1 B baseA aofs bofs Len).1 =
        (maxInt cpu A B baseA aofs bofs Len).1) ∧
    (∀ (cpu : Nat) (A B : Mem Int) (aofs bofs Len : Nat),
      (minLong cpu (minLong cpu A B aofs bofs Len).1 B aofs bofs Len).1 =
        (minLong cpu A B aofs bofs Len).1) ∧
    (∀ (cpu : Nat) (A B : Mem Int) (aofs bofs Len : Nat),
      (maxLong cpu (maxLong cpu A B aofs bofs Len).1 B aofs bofs Len).1 =
        (maxLong cpu A B aofs bofs Len).1) ∧
    (∀ (cpu : Nat) (A B : Mem Int) (baseA aofs bofs Len : Nat),
      (minuByte cpu (minuByte cpu A B baseA aofs bofs Len).1 B baseA aofs bofs Len).1 =
        (minuByte cpu A B baseA aofs bofs Len).1) ∧
    (∀ (cpu : Nat) (A B : Mem Int) (baseA aofs bofs Len : Nat),
      (maxuByte cpu (maxuByte cpu A B baseA aofs bofs Len).1 B baseA aofs bofs Len).1 =
        (maxuByte cpu A B baseA aofs bofs Len).1) ∧
    (∀ (cpu : Nat) (A B : Mem (Option Int)) (baseA aofs bofs Len : Nat),
      (minFloat cpu (minFloat cpu A B baseA aofs bofs Len).1 B baseA aofs bofs Len).1 =
        (minFloat cpu A B baseA aofs bofs Len).1) ∧
    (∀ (cpu : Nat) (A B : Mem (Option Int)) (baseA aofs bofs Len : Nat),
      (maxFloat cpu (maxFloat cpu A B baseA aofs bofs Len).1 B baseA aofs bofs Len).1 =
        (maxFloat cpu A B baseA aofs bofs Len).1) ∧
    (∀ (cpu : Nat) (A B : Mem (Option Int)) (baseA aofs bofs Len : Nat),
      (minDouble cpu (minDouble cpu A B baseA aofs bofs Len).1 B baseA aofs bofs Len).1 =
        (minDouble cpu A B baseA aofs bofs Len).1) ∧
    (∀ (cpu : Nat) (A B : Mem (Option Int)) (baseA aofs bofs Len : Nat),
      (maxDouble cpu (maxDouble cpu A B baseA aofs bofs Len).1 B baseA aofs bofs Len).1 =
        (maxDouble cpu A B baseA aofs bofs Len).1) := by
  refine ⟨?_, ?_, ?_, ?_, ?_, ?_, ?_, ?_, ?_, ?_, ?_, ?_, ?_, ?_, ?_, ?_,
    ?_, ?_, ?_, ?_, ?_, ?_, ?_, ?_, ?_, ?_, ?_, ?_, ?_, ?_, ?_, ?_⟩
  · intro cpu A B baseA baseB aofs bofs Len k hk
    simp only [minByte]
    rw [minmaxIntRun_apply gtInt true cpu A B baseA 1 aofs bofs Len (by decide) (aofs + k),
      minmaxIntRun_apply gtInt true cpu B A baseB 1 bofs aofs Len (by decide) (bofs + k),
      if_pos (show aofs ≤ aofs + k ∧ aofs + k < aofs + Len by omega),
      if_pos (show bofs ≤ bofs + k ∧ bofs + k < bofs + Len by omega)]
    simp only [Nat.add_sub_cancel_left]
    rw [cmpStep_gtInt, cmpStep_gtInt]
    exact min_comm _ _
  · intro cpu A B baseA baseB aofs bofs Len k hk
    simp only [maxByte]
    rw [minmaxIntRun_apply ltInt true cpu A B baseA 1 aofs bofs Len (by decide) (aofs + k),
      minmaxIntRun_apply ltInt true cpu B A baseB 1 bofs aofs Len (by decide) (bofs + k),
      if_pos (show aofs ≤ aofs + k ∧ aofs + k < aofs + Len by omega),
      if_pos (show bofs ≤ bofs + k ∧ bofs + k < bofs + Len by omega)]
    simp only [Nat.add_sub_cancel_left]
    rw [cmpStep_ltInt, cmpStep_ltInt]
    exact max_comm _ _
  · intro cpu A B baseA baseB aofs bofs Len k hk
    simp only [minShort]
    rw [minmaxIntRun_apply gtInt true cpu A B baseA 2 aofs bofs Len (by decide) (aofs + k),
      minmaxIntRun_apply gtInt true cpu B A baseB 2 bofs aofs Len (by decide) (bofs + k),
      if_pos (show aofs ≤ aofs + k ∧ aofs + k < aofs + Len by omega),
      if_pos (show bofs ≤ bofs + k ∧ bofs + k < bofs + Len by omega)]
    simp only [Nat.add_sub_cancel_left]
    rw [cmpStep_gtInt, cmpStep_gtInt]
    exact min_comm _ _
  · intro cpu A B baseA baseB aofs bofs Len k hk
    simp only [maxShort]
    rw [minmaxIntRun_apply ltInt true cpu A B baseA 2 aofs bofs Len (by decide) (aofs + k),
      minmaxIntRun_apply ltInt true cpu B A baseB 2 bofs aofs Len (by decide) (bofs + k),
      if_pos (show aofs ≤ aofs + k ∧ aofs + k < aofs + Len by omega),
      if_pos (show bofs ≤ bofs + k ∧ bofs + k < bofs + Len by omega)]
    simp only [Nat.add_sub_cancel_left]
    rw [cmpStep_ltInt, cmpStep_ltInt]
    exact max_comm _ _
  · intro cpu A B baseA baseB aofs bofs Len k hk
    simp only [minuShort]
    rw [minmaxIntRun_apply gtInt true cpu A B baseA 2 aofs bofs Len (by decide) (aofs + k),
      minmaxIntRun_apply gtInt true cpu B A baseB 2 bofs aofs Len (by decide) (bofs + k),
      if_pos (show aofs ≤ aofs + k ∧ aofs + k < aofs + Len by omega),
      if_pos (show bofs ≤ bofs + k ∧ bofs + k < bofs + Len by omega)]
    simp only [Nat.add_sub_cancel_left]
    rw [cmpStep_gtInt, cmpStep_gtInt]
    exact min_comm _ _
  · intro cpu A B baseA baseB aofs bofs Len k hk
    simp only [maxuShort]
    rw [minmaxIntRun_apply ltInt true cpu A B baseA 2 aofs bofs Len (by decide) (aofs + k),
      minmaxIntRun_apply ltInt true cpu B A baseB 2 bofs aofs Len (by decide) (bofs + k),
      if_pos (show aofs ≤ aofs + k ∧ aofs + k < aofs + Len by omega),
      if_pos (show bofs ≤ bofs + k ∧ bofs + k < bofs + Len by omega)]
    simp only [Nat.add_sub_cancel_left]
    rw [cmpStep_ltInt, cmpStep_ltInt]
    exact max_comm _ _
  · intro cpu A B baseA baseB aofs bofs Len k hk
    simp only [minInt]
    rw [minmaxIntRun_apply gtInt false cpu A B baseA 4 aofs bofs Len (by decide) (aofs + k),
      minmaxIntRun_apply gtInt false cpu B A baseB 4 bofs aofs Len (by decide) (bofs + k),
      if_pos (show aofs ≤ aofs + k ∧ aofs + k < aofs + Len by omega),
      if_pos (show bofs ≤ bofs + k ∧ bofs + k < bofs + Len by omega)]
    simp only [Nat.add_sub_cancel_left]
    rw [cmpStep_gtInt, cmpStep_gtInt]
    exact min_comm _ _
  · intro cpu A B baseA baseB aofs bofs Len k hk
    simp only [maxInt]
    rw [minmaxIntRun_apply ltInt false cpu A B baseA 4 aofs bofs Len (by decide) (aofs + k),
      minmaxIntRun_apply ltInt false cpu B A baseB 4 bofs aofs Len (by decide) (bofs + k),
      if_pos (show aofs ≤ aofs + k ∧ aofs + k < aofs + Len by omega),
      if_pos (show bofs ≤ bofs + k ∧ bofs + k < bofs + Len by omega)]
    simp only [Nat.add_sub_cancel_left]
    rw [cmpStep_ltInt, cmpStep_ltInt]
    exact max_comm _ _
  · intro cpu A B aofs bofs Len k hk
    simp only [minLong, minmaxLongRun]
    rw [minmaxBodyLoop_apply, minmaxBodyLoop_apply,
      if_pos (show aofs ≤ aofs + k ∧ aofs + k < aofs + Len by omega),
      if_pos (show bofs ≤ bofs + k ∧ bofs + k < bofs + Len by omega)]
    simp only [Nat.add_sub_cancel_left]
    rw [cmpStep_gtInt, cmpStep_gtInt]
    exact min_comm _ _
  · intro cpu A B aofs bofs Len k hk
    simp only [maxLong, minmaxLongRun]
    rw [minmaxBodyLoop_apply, minmaxBodyLoop_apply,
      if_pos (show aofs ≤ aofs + k ∧ aofs + k < aofs + Len by omega),
      if_pos (show bofs ≤ bofs + k ∧ bofs + k < bofs + Len by omega)]
    simp only [Nat.add_sub_cancel_left]
    rw [cmpStep_ltInt, cmpStep_ltInt]
    exact max_comm _ _
  · intro cpu A B baseA baseB aofs bofs Len k hk
    simp only [minuByte]
    rw [pminubRun_apply gtInt cpu A B baseA aofs bofs Len (aofs + k),
      pminubRun_apply gtInt cpu B A baseB bofs aofs Len (bofs + k),
      if_pos (show aofs ≤ aofs + k ∧ aofs + k < aofs + Len by omega),
      if_pos (show bofs ≤ bofs + k ∧ bofs + k < bofs + Len by omega)]
    simp only [Nat.add_sub_cancel_left]
    rw [cmpStep_gtInt, cmpStep_gtInt]
    exact min_comm _ _
  · intro cpu A B baseA baseB aofs bofs Len k hk
    simp only [maxuByte]
    rw [pminubRun_apply ltInt cpu A B baseA aofs bofs Len (aofs + k),
      pminubRun_apply ltInt cpu B A baseB bofs aofs Len (bofs + k),
      if_pos (show aofs ≤ aofs + k ∧ aofs + k < aofs + Len by omega),
      if_pos (show bofs ≤ bofs + k ∧ bofs + k < bofs + Len by omega)]
    simp only [Nat.add_sub_cancel_left]
    rw [cmpStep_ltInt, cmpStep_ltInt]
    exact max_comm _ _
  · intro cpu A B baseA baseB aofs bofs Len k hk hA hB
    simp only [minFloat]
    have e1 : aofs + k - aofs = k := by omega
    have e2 : bofs + k - bofs = k := by omega
    have h1 := minmaxFloatRun_local fgt minpsOp cpu A B baseA aofs bofs Len (aofs + k)
      minpsOp_eq_cmpStep ⟨by omega, by omega⟩ hA (by rw [e1]; exact hB)
    have h2 := minmaxFloatRun_local fgt minpsOp cpu B A baseB bofs aofs Len (bofs + k)
      minpsOp_eq_cmpStep ⟨by omega, by omega⟩ hB (by rw [e2]; exact hA)
    rw [h1, h2, e1, e2]
    rcases hx : A (aofs + k) with _ | x
    · exact absurd hx hA
    rcases hy : B (bofs + k) with _ | y
    · exact absurd hy hB
    rw [cmpStep_fgt, cmpStep_fgt, min_comm]
  · intro cpu A B baseA baseB aofs bofs Len k hk hA hB
    simp only [maxFloat]
    have e1 : aofs + k - aofs = k := by omega
    have e2 : bofs + k - bofs = k := by omega
    have h1 := minmaxFloatRun_local flt maxpsOp cpu A B baseA aofs bofs Len (aofs + k)
      maxpsOp_eq_cmpStep ⟨by omega, by omega⟩ hA (by rw [e1]; exact hB)
    have h2 := minmaxFloatRun_local flt maxpsOp cpu B A baseB bofs aofs Len (bofs + k)
      maxpsOp_eq_cmpStep ⟨by omega, by omega⟩ hB (by rw [e2]; exact hA)
    rw [h1, h2, e1, e2]
    rcases hx : A (aofs + k) with _ | x
    · exact absurd hx hA
    rcases hy : B (bofs + k) with _ | y
    · exact absurd hy hB
    rw [cmpStep_flt, cmpStep_flt, max_comm]
  · intro cpu A B baseA baseB aofs bofs Len k hk hA hB
    simp only [minDouble]
    have e1 : aofs + k - aofs = k := by omega
    have e2 : bofs + k - bofs = k := by omega
    have h1 := minmaxDoubleRun_local fgt fcmovMinOp cpu A B baseA aofs bofs Len (aofs + k)
      fcmovMinOp_eq_cmpStep ⟨by omega, by omega⟩ hA (by rw [e1]; exact hB)
    have h2 := minmaxDoubleRun_local fgt fcmovMinOp cpu B A baseB bofs aofs Len (bofs + k)
      fcmovMinOp_eq_cmpStep ⟨by omega, by omega⟩ hB (by rw [e2]; exact hA)
    rw [h1, h2, e1, e2]
    rcases hx : A (aofs + k) with _ | x
    · exact absurd hx hA
    rcases hy : B (bofs + k) with _ | y
    · exact absurd hy hB
    rw [cmpStep_fgt, cmpStep_fgt, min_comm]
  · intro cpu A B baseA baseB aofs bofs Len k hk hA hB
    simp only [maxDouble]
    have e1 : aofs + k - aofs = k := by omega
    have e2 : bofs + k - bofs = k := by omega
    have h1 := minmaxDoubleRun_local flt fcmovMaxOp cpu A B baseA aofs bofs Len (aofs + k)
      fcmovMaxOp_eq_cmpStep ⟨by omega, by omega⟩ hA (by rw [e1]; exact hB)
    have h2 := minmaxDoubleRun_local flt fcmovMaxOp cpu B A baseB bofs aofs Len (bofs + k)
      fcmovMaxOp_eq_cmpStep ⟨by omega, by omega⟩ hB (by rw [e2]; exact hA)
    rw [h1, h2, e1, e2]
    rcases hx : A (aofs + k) with _ | x
    · exact absurd hx hA
    rcases hy : B (bofs + k) with _ | y
    · exact absurd hy hB
    rw [cmpStep_flt, cmpStep_flt, max_comm]
  · intro cpu A B baseA aofs bofs Len
    exact minmaxIntRun_idem gtInt true cpu A B baseA 1 aofs bofs Len (by decide)
  · intro cpu A B baseA aofs bofs Len
    exact minmaxIntRun_idem ltInt true cpu A B baseA 1 aofs bofs Len (by decide)
  · intro cpu A B baseA aofs bofs Len
    exact minmaxIntRun_idem gtInt true cpu A B baseA 2 aofs bofs Len (by decide)
  · intro cpu A B baseA aofs bofs Len
    exact minmaxIntRun_idem ltInt true cpu A B baseA 2 aofs bofs Len (by decide)
  · intro cpu A B baseA aofs bofs Len
    exact minmaxIntRun_idem gtInt true cpu A B baseA 2 aofs bofs Len (by decide)
  · intro cpu A B baseA aofs bofs Len
    exact minmaxIntRun_idem ltInt true cpu A B baseA 2 aofs bofs Len (by decide)
  · intro cpu A B baseA aofs bofs Len
    exact minmaxIntRun_idem gtInt false cpu A B baseA 4 aofs bofs Len (by decide)
  · intro cpu A B baseA aofs bofs Len
    exact minmaxIntRun_idem ltInt false cpu A B baseA 4 aofs bofs Len (by decide)
  · intro cpu A B aofs bofs Len
    exact minmaxBodyLoop_idem gtInt A B aofs bofs Len
  · intro cpu A B aofs bofs Len
    exact minmaxBodyLoop_idem ltInt A B aofs bofs Len
  · intro cpu A B baseA aofs bofs Len
    exact pminubRun_idem gtInt cpu A B baseA aofs bofs Len
  · intro cpu A B baseA aofs bofs Len
    exact pminubRun_idem ltInt cpu A B baseA aofs bofs Len
  · intro cpu A B baseA aofs bofs Len
    exact minmaxFloatRun_idem fgt minpsOp cpu A B baseA aofs bofs Len minpsOp_idem
  · intro cpu A B baseA aofs bofs Len
    exact minmaxFloatRun_idem flt maxpsOp cpu A B baseA aofs bofs Len maxpsOp_idem
  · intro cpu A B baseA aofs bofs Len
    exact minmaxDoubleRun_idem fgt fcmovMinOp cpu A B baseA aofs bofs Len fcmovMinOp_idem
  · intro cpu A B baseA aofs bofs Len
    exact minmaxDoubleRun_idem flt fcmovMaxOp cpu A B baseA aofs bofs Len fcmovMaxOp_idem

theorem c9_witness :
    ((2 : Nat) < 3 ∧ cexFive (0 + 2) ≠ none ∧ cexFive (1 + 2) ≠ none) ∧
    (minByte CPU_MMX mC mC 0 0 1 3).1 (0 + 2) = (minByte CPU_MMX mC mC 0 1 0 3).1 (1 + 2) ∧
    (minFloat 0 cexFive cexFive 0 0 1 3).1 (0 + 2) =
      (minFloat 0 cexFive cexFive 1 1 0 3).1 (1 + 2) :=
  ⟨⟨by decide, by decide, by decide⟩,
    c9_minmax_algebra.1 CPU_MMX mC mC 0 0 0 1 3 2 (by decide),
    c9_minmax_algebra.2.2.2.2.2.2.2.2.2.2.2.2.1 0 cexFive cexFive 0 1 0 1 3 2
      (by decide) (by decide) (by decide)⟩

end ArraysNative

